import Mathlib

/-!
# safunode: the private transaction relayer and the chain head tracker

A shallow embedding of `src/server/relayer.go`, `src/server/blockchain.go` and
`src/server/types.go`.

Conventions of the embedding

* `uint64` values are natural numbers; every `+ 1` the source performs on a
  `uint64` is written `u64 (n + 1)`, the sum reduced modulo `2 ^ 64`.
* A Go `string` is a Lean `String`; `len` and slicing act on its UTF-8 bytes
  (`goBytes`), as they do in Go.
* A Go `map` is an association list without repeated keys (`WF`); the order of
  the list stands for the order in which `range` visits the map.  The
  operations are defined on all lists, the lemmas that need distinct keys say so.
* `*types.Transaction` comes from go-ethereum.  A `Transaction` value records
  what the methods called by this repository return for it.  The decoder
  `UnmarshalBinary` is a parameter of `SendRawTransaction`.
* Everything behind `MakeRequest` (signing, HTTP, reading and parsing the
  reply) is the environment `Relay`: it maps the requests handed over so far and
  the current request to a transport error or to the parsed reply.
* `PrivateTxRelayer.posted` is a ghost field: the bodies handed to
  `MakeRequest` by `SendBundle`, oldest first.
* Goroutines are not modelled: every function runs to completion on the state
  it is given.
-/

namespace Safunode

deriving instance DecidableEq for Except

/-! ## Machine integers, strings, hexadecimal -/

/-- Value of a `uint64` expression: reduction modulo `2 ^ 64`. -/
def u64 (n : Nat) : Nat := n % 2 ^ 64

/-- UTF-8 encoding of one code point. -/
def utf8 (c : Char) : List Nat :=
  let n := c.toNat
  if n < 0x80 then [n]
  else if n < 0x800 then [0xC0 + n / 64, 0x80 + n % 64]
  else if n < 0x10000 then [0xE0 + n / 4096, 0x80 + (n / 64) % 64, 0x80 + n % 64]
  else [0xF0 + n / 262144, 0x80 + (n / 4096) % 64, 0x80 + (n / 64) % 64, 0x80 + n % 64]

/-- The bytes of a Go string. -/
def goBytes (s : String) : List Nat := s.data.flatMap utf8

/-- Value of one hexadecimal digit, either case (`encoding/hex`, `fromHexChar`). -/
def fromHexChar (c : Nat) : Option Nat :=
  if 48 ≤ c ∧ c ≤ 57 then some (c - 48)
  else if 97 ≤ c ∧ c ≤ 102 then some (c - 97 + 10)
  else if 65 ≤ c ∧ c ≤ 70 then some (c - 65 + 10)
  else none

/-- Go `hex.DecodeString` on the bytes of its argument; `none` is any error
(`ErrLength` or `InvalidByteError`). -/
def hex.DecodeString : List Nat → Option (List Nat)
  | [] => some []
  | [_] => none
  | a :: b :: rest =>
    match fromHexChar a, fromHexChar b with
    | some x, some y =>
      match hex.DecodeString rest with
      | some t => some ((x * 16 + y) :: t)
      | none => none
    | _, _ => none

/-- Go `strconv.FormatUint(n, 16)`. -/
def strconv.FormatUint (n : Nat) : String := String.mk (Nat.toDigits 16 n)

/-- Go-ethereum `hexutil.Encode`: `0x` followed by two lower-case digits per byte. -/
def hexutil.Encode (b : List Nat) : String :=
  String.mk ('0' :: 'x' :: b.flatMap (fun x => [Nat.digitChar (x / 16 % 16), Nat.digitChar (x % 16)]))

/-! ## Go maps as association lists -/

/-- Go `m[k]`; `none` when the key is absent. -/
def mapIndex {κ ν : Type} [DecidableEq κ] : List (κ × ν) → κ → Option ν
  | [], _ => none
  | (k', v) :: m, k => if k' = k then some v else mapIndex m k

/-- Go `m[k] = v`. -/
def mapAssign {κ ν : Type} [DecidableEq κ] : List (κ × ν) → κ → ν → List (κ × ν)
  | [], k, v => [(k, v)]
  | (k', v') :: m, k, v => if k' = k then (k, v) :: m else (k', v') :: mapAssign m k v

/-- Go `delete(m, k)`. -/
def mapDelete {κ ν : Type} [DecidableEq κ] : List (κ × ν) → κ → List (κ × ν)
  | [], _ => []
  | (k', v') :: m, k => if k' = k then mapDelete m k else (k', v') :: mapDelete m k

/-! ## Data (`types.go`, `relayer.go`, `blockchain.go`) -/

/-- Type `SendBundleArgs` of `types.go`. -/
structure SendBundleArgs where
  Txs : List String
  BlockNumber : String
  MinTimestamp : String
  MaxTimestamp : String
  RevertingTxHashes : List String
deriving DecidableEq

/-- The Go `interface{}` values that occur in requests and responses. -/
inductive Value where
  | null
  | str (s : String)
  | num (n : Int)
  | uint64 (n : Nat)
  | bool (b : Bool)
  | bundle (args : SendBundleArgs)
  | other (json : String)
deriving DecidableEq

/-- Type `JsonRpcRequest` of `types.go`. -/
structure JsonRpcRequest where
  Id : Value
  Method : String
  Params : List Value
  Version : String
deriving DecidableEq

/-- Type `JsonRpcResponse` of `types.go`. -/
structure JsonRpcResponse where
  Id : Value
  Result : Value
  Error : Value
  Message : Value
  Version : String
deriving DecidableEq

/-- Go `error` values: a message (`errors.New`, library and transport errors), or
the error `SendBundle` builds with `fmt.Errorf` from the reply's `error` field. -/
inductive GoError where
  | text (msg : String)
  | sendBundleError (payload : Value)
deriving DecidableEq

/-- Go-ethereum `common.Address`, seen through its `Hex()` rendering. -/
structure Address where
  Hex : String
deriving DecidableEq

/-- Go-ethereum `types.Transaction`, seen through the methods this repository
calls: `Nonce()`, `Hash().Hex()`, `MarshalBinary()`, and
`types.Sender(types.LatestSignerForChainID(tx.ChainId()), tx)`. -/
structure Transaction where
  Nonce : Nat
  Hash : String
  Sender : Except GoError Address
  MarshalBinary : Except GoError (List Nat)
deriving DecidableEq

/-- Type `PendingTransaction` of `relayer.go`. -/
structure PendingTransaction where
  Tx : Transaction
  BlockNumber : Nat
deriving DecidableEq

/-- Go-ethereum `types.Header`: the field read by `processNewHeader`. -/
structure Header where
  Number : Nat
deriving DecidableEq

/-- Go-ethereum `types.Block`, seen through `NumberU64()` and `Transactions()`. -/
structure Block where
  NumberU64 : Nat
  Transactions : List Transaction
deriving DecidableEq

/-- A buffered Go channel of blocks: capacity and queued elements. -/
structure BlockChan where
  cap : Nat
  buf : List Block
deriving DecidableEq

/-- Type `BlockchainManager` of `blockchain.go`: the fields that change after
construction.  The subscriber channels are held by value. -/
structure BlockchainManager where
  latestBlockNumber : Nat
  blockSubs : List BlockChan
deriving DecidableEq

/-- The registry type `map[string]map[uint64]*PendingTransaction`. -/
abbrev Registry := List (String × List (Nat × PendingTransaction))

/-- Type `PrivateTxRelayer` of `relayer.go`, with the ghost field `posted`. -/
structure PrivateTxRelayer where
  Url : String
  id : Nat
  txByFromAndNonce : Registry
  posted : List JsonRpcRequest
deriving DecidableEq

/-- The relay as seen from `SendBundle`: the outcome of `MakeRequest`, of reading
the body and of `json.Unmarshal`, given the requests handed over before and the
current one.  An error stands for a failure of any of the three steps; a reply
whose body is the JSON value `null` is not modelled. -/
abbrev Relay := List JsonRpcRequest → JsonRpcRequest → Except GoError JsonRpcResponse

/-! ## `blockchain.go` -/

/-- Method `GetLatestBlockNumber`. -/
def GetLatestBlockNumber (bm : BlockchainManager) : Nat := bm.latestBlockNumber

/-- Method `SubscribeNewBlock`. -/
def SubscribeNewBlock (bm : BlockchainManager) (ch : BlockChan) : BlockchainManager :=
  { bm with blockSubs := bm.blockSubs ++ [ch] }

/-- The non-blocking send `select { case ch <- block: default: }`. -/
def trySend (block : Block) (ch : BlockChan) : BlockChan :=
  if ch.buf.length < ch.cap then { ch with buf := ch.buf ++ [block] } else ch

/-- Method `broadcastNewBlock`. -/
def broadcastNewBlock (bm : BlockchainManager) (block : Block) : BlockchainManager :=
  { bm with blockSubs := bm.blockSubs.map (trySend block) }

/-- Method `processNewHeader`; `BlockByNumber` is the node's answer to
`bm.client.BlockByNumber(ctx, header.Number)`. -/
def processNewHeader (BlockByNumber : Nat → Except GoError Block) (bm : BlockchainManager)
    (header : Header) : BlockchainManager :=
  let bm1 := { bm with latestBlockNumber := u64 header.Number }
  match BlockByNumber header.Number with
  | .error _ => bm1
  | .ok block => broadcastNewBlock bm1 block

/-! ## `relayer.go` -/

/-- Function `NewPrivateTxRelayer`: the relayer it builds. -/
def NewPrivateTxRelayer (url : String) : PrivateTxRelayer :=
  { Url := url, id := 1000000000, txByFromAndNonce := [], posted := [] }

/-- Function `From`. -/
def From (tx : Transaction) : Except GoError String :=
  match tx.Sender with
  | .error err => .error err
  | .ok sender => .ok sender.Hex

/-- The value `sendBundleArgs` that `SendBundle` builds from its arguments. -/
def sendBundleArgs (rawTxs : List String) (blockNumber : Nat) : SendBundleArgs :=
  { Txs := rawTxs
    BlockNumber := "0x" ++ strconv.FormatUint blockNumber
    MinTimestamp := ""
    MaxTimestamp := ""
    RevertingTxHashes := [] }

/-- The value `bundleJsonReq` that `SendBundle` builds, `id` being the fresh id. -/
def bundleRequest (id : Nat) (rawTxs : List String) (blockNumber : Nat) : JsonRpcRequest :=
  { Id := .uint64 id
    Method := "eth_sendBundle"
    Params := [.bundle (sendBundleArgs rawTxs blockNumber)]
    Version := "2.0" }

/-- Method `SendBundle`.  Returns the relayer (id advanced, request recorded)
and the error, `none` for `nil`.  The error branch of `json.Marshal` is left out:
marshalling this request value cannot fail. -/
def SendBundle (relay : Relay) (r : PrivateTxRelayer) (rawTxs : List String)
    (blockNumber : Nat) : PrivateTxRelayer × Option GoError :=
  let id := u64 (r.id + 1)
  let bundleJsonReq := bundleRequest id rawTxs blockNumber
  let r1 := { r with id := id, posted := r.posted ++ [bundleJsonReq] }
  match relay r.posted bundleJsonReq with
  | .error err => (r1, some err)
  | .ok bundleJsonResp =>
    if bundleJsonResp.Error ≠ .null then (r1, some (.sendBundleError bundleJsonResp.Error))
    else (r1, none)

/-- Method `addPendingTransaction`. -/
def addPendingTransaction (r : PrivateTxRelayer) (tx : Transaction) (blockNumber : Nat) :
    PrivateTxRelayer × Option GoError :=
  match From tx with
  | .error err => (r, some err)
  | .ok sender =>
    let m1 : Registry :=
      match mapIndex r.txByFromAndNonce sender with
      | none => mapAssign r.txByFromAndNonce sender []
      | some _ => r.txByFromAndNonce
    let inner := (mapIndex m1 sender).getD []
    ({ r with txByFromAndNonce :=
        mapAssign m1 sender (mapAssign inner tx.Nonce { Tx := tx, BlockNumber := blockNumber }) },
      none)

/-- Method `removePendingTransaction`. -/
def removePendingTransaction (r : PrivateTxRelayer) (tx : Transaction) :
    PrivateTxRelayer × Option GoError :=
  match From tx with
  | .error err => (r, some err)
  | .ok sender =>
    match mapIndex r.txByFromAndNonce sender with
    | none => (r, none)
    | some inner =>
      ({ r with txByFromAndNonce :=
          mapAssign r.txByFromAndNonce sender (mapDelete inner tx.Nonce) }, none)

/-- Method `SendRawTransaction`; `bm` is the head tracker at the time of the call. -/
def SendRawTransaction (UnmarshalBinary : List Nat → Except GoError Transaction)
    (relay : Relay) (bm : BlockchainManager) (r : PrivateTxRelayer)
    (rawJsonReq : JsonRpcRequest) : PrivateTxRelayer × Except GoError JsonRpcResponse :=
  match rawJsonReq.Params with
  | [] => (r, .error (.text "invalid params"))
  | .str rawTxHex :: _ =>
    if (goBytes rawTxHex).length < 2 then (r, .error (.text "invalid raw transaction"))
    else
      match hex.DecodeString ((goBytes rawTxHex).drop 2) with
      | none => (r, .error (.text "invalid raw transaction"))
      | some rawTxBytes =>
        match UnmarshalBinary rawTxBytes with
        | .error err => (r, .error err)
        | .ok tx =>
          let blockNumber := u64 (GetLatestBlockNumber bm + 1)
          match SendBundle relay r [rawTxHex] blockNumber with
          | (r1, some err) => (r1, .error err)
          | (r1, none) =>
            match addPendingTransaction r1 tx blockNumber with
            | (r2, some err) => (r2, .error err)
            | (r2, none) =>
              (r2, .ok
                { Id := rawJsonReq.Id
                  Result := .str tx.Hash
                  Error := .null
                  Message := .null
                  Version := "2.0" })
  | _ :: _ => (r, .error (.text "invalid raw transaction"))

/-- Phase 1 of `txMonitorLoop`: `removePendingTransaction` for every
transaction of the block, an error skipping to the next one. -/
def removePhase (r : PrivateTxRelayer) : List Transaction → PrivateTxRelayer
  | [] => r
  | tx :: newTxs => removePhase (removePendingTransaction r tx).1 newTxs

/-- The body of the inner loop of phase 2 for one `txInfo`. -/
def resendEntry (relay : Relay) (blockNumber : Nat) (r : PrivateTxRelayer)
    (txInfo : PendingTransaction) : PrivateTxRelayer × PendingTransaction :=
  if txInfo.BlockNumber > blockNumber then (r, txInfo)
  else
    let txInfo1 := { txInfo with BlockNumber := u64 (blockNumber + 1) }
    match txInfo1.Tx.MarshalBinary with
    | .error _ => (r, txInfo1)
    | .ok rawTxBytes =>
      ((SendBundle relay r [hexutil.Encode rawTxBytes] txInfo1.BlockNumber).1, txInfo1)

/-- The inner loop of phase 2: `for nonce, txInfo := range txInfoByNonce`. -/
def resendNonces (relay : Relay) (blockNumber : Nat) :
    PrivateTxRelayer → List (Nat × PendingTransaction) →
      PrivateTxRelayer × List (Nat × PendingTransaction)
  | r, [] => (r, [])
  | r, (nonce, txInfo) :: rest =>
    let step := resendEntry relay blockNumber r txInfo
    let tail := resendNonces relay blockNumber step.1 rest
    (tail.1, (nonce, step.2) :: tail.2)

/-- The outer loop of phase 2: `for from, txInfoByNonce := range r.txByFromAndNonce`. -/
def resendSenders (relay : Relay) (blockNumber : Nat) :
    PrivateTxRelayer → Registry → PrivateTxRelayer × Registry
  | r, [] => (r, [])
  | r, (sender, txInfoByNonce) :: rest =>
    let step := resendNonces relay blockNumber r txInfoByNonce
    let tail := resendSenders relay blockNumber step.1 rest
    (tail.1, (sender, step.2) :: tail.2)

/-- Phase 2 of `txMonitorLoop`. -/
def resendPhase (relay : Relay) (blockNumber : Nat) (r : PrivateTxRelayer) : PrivateTxRelayer :=
  let swept := resendSenders relay blockNumber r r.txByFromAndNonce
  { swept.1 with txByFromAndNonce := swept.2 }

/-- One iteration of `txMonitorLoop`: the block received from `r.blockCh`. -/
def txMonitorLoop (relay : Relay) (r : PrivateTxRelayer) (block : Block) : PrivateTxRelayer :=
  resendPhase relay block.NumberU64 (removePhase r block.Transactions)

/-! ## Notions used to state the properties -/

/-- The entry `r.txByFromAndNonce[from][nonce]`, `none` when there is none. -/
def entryAt (reg : Registry) (sender : String) (nonce : Nat) : Option PendingTransaction :=
  match mapIndex reg sender with
  | none => none
  | some inner => mapIndex inner nonce

/-- All entries of the registry with their keys, in iteration order. -/
def entries (reg : Registry) : List (String × Nat × PendingTransaction) :=
  reg.flatMap (fun p => p.2.map (fun q => (p.1, q.1, q.2)))

/-- The entries stored under one `(sender, nonce)` pair. -/
def slotEntries (reg : Registry) (sender : String) (nonce : Nat) : List PendingTransaction :=
  ((entries reg).filter (fun t => decide (t.1 = sender ∧ t.2.1 = nonce))).map (fun t => t.2.2)

/-- The bytes `tx.MarshalBinary()` yields, empty when it fails. -/
def rawOf (tx : Transaction) : List Nat :=
  match tx.MarshalBinary with
  | .ok b => b
  | .error _ => []

/-- Keys of a Go map are distinct. -/
def WFMap {κ ν : Type} (m : List (κ × ν)) : Prop := (m.map Prod.fst).Nodup

/-- The registry is a map of maps. -/
def WF (reg : Registry) : Prop := WFMap reg ∧ ∀ p ∈ reg, WFMap p.2

/-- What the body of the re-send loop does to one entry. -/
def bump (blockNumber : Nat) (txInfo : PendingTransaction) : PendingTransaction :=
  if txInfo.BlockNumber > blockNumber then txInfo
  else { txInfo with BlockNumber := u64 (blockNumber + 1) }

/-- Method and parameters of the call the re-send phase makes for `e` at block `bn`. -/
def resendCall (bn : Nat) (e : PendingTransaction) : String × List Value :=
  ("eth_sendBundle", [Value.bundle (sendBundleArgs [hexutil.Encode (rawOf e.Tx)] (bn + 1))])

/-- The pairs of a map stored under key `k`. -/
def slot {κ ν : Type} [DecidableEq κ] (m : List (κ × ν)) (k : κ) : List (κ × ν) :=
  m.filter (fun q => decide (q.1 = k))

/-- The registry `addPendingTransaction` stores when the sender is recovered. -/
def added (reg : Registry) (s : String) (tx : Transaction) (bn : Nat) : Registry :=
  mapAssign reg s (mapAssign ((mapIndex reg s).getD []) tx.Nonce { Tx := tx, BlockNumber := bn })

/-- A byte string made of hexadecimal digits of either case, in even number:
the inputs `hex.DecodeString` accepts. -/
def isHexBody (b : List Nat) : Bool :=
  b.length % 2 == 0 && b.all (fun c => (fromHexChar c).isSome)

/-- The parameter format the specification asks for: `0x` followed by lower-case
hexadecimal digits, of even length at least two. -/
def isLowerHex0x (s : String) : Bool :=
  match goBytes s with
  | 48 :: 120 :: rest =>
    rest.length % 2 == 0 &&
      rest.all (fun c => decide ((48 ≤ c ∧ c ≤ 57) ∨ (97 ≤ c ∧ c ≤ 102)))
  | _ => false

/-! ## Sample data for the concrete evaluations

Three signed legacy transactions of chain id 1 from the key of the EIP-155
example (sender `0x9d8A62f656a8d1615C1294fd71e9CFb3E4855A4F`): the EIP-155 example
itself (nonce 9), a second transaction with nonce 9 and another value, and one
with nonce 10. -/

/-- Sender of the sample transactions. -/
def senderS : String := "0x9d8A62f656a8d1615C1294fd71e9CFb3E4855A4F"

/-- Binary encoding of the EIP-155 example transaction. -/
def rawA : List Nat :=
  [248, 108, 9, 133, 4, 168, 23, 200, 0, 130, 82, 8, 148, 53, 53, 53, 53, 53, 53, 53, 53, 53,
   53, 53, 53, 53, 53, 53, 53, 53, 53, 53, 53, 136, 13, 224, 182, 179, 167, 100, 0, 0, 128, 37,
   160, 40, 239, 97, 52, 11, 217, 57, 188, 33, 149, 254, 83, 117, 103, 134, 96, 3, 225, 161, 93,
   60, 113, 255, 99, 225, 89, 6, 32, 170, 99, 98, 118, 160, 103, 203, 233, 216, 153, 127, 118,
   26, 236, 183, 3, 48, 75, 56, 0, 204, 245, 85, 201, 243, 220, 100, 33, 75, 41, 127, 177, 150,
   106, 59, 109, 131]

/-- Binary encoding of the second transaction with nonce 9. -/
def rawB : List Nat :=
  [248, 108, 9, 133, 4, 168, 23, 200, 0, 130, 82, 8, 148, 53, 53, 53, 53, 53, 53, 53, 53, 53,
   53, 53, 53, 53, 53, 53, 53, 53, 53, 53, 53, 136, 27, 193, 109, 103, 78, 200, 0, 0, 128, 38,
   160, 187, 80, 226, 216, 154, 78, 215, 6, 99, 208, 128, 101, 159, 224, 173, 75, 155, 195, 224,
   108, 23, 162, 39, 67, 57, 102, 203, 89, 206, 238, 2, 13, 160, 83, 104, 112, 59, 107, 104,
   215, 83, 64, 137, 239, 181, 210, 86, 97, 153, 179, 165, 65, 83, 186, 90, 180, 92, 104, 230,
   18, 193, 32, 159, 129, 19]

/-- Binary encoding of the transaction with nonce 10. -/
def rawC : List Nat :=
  [248, 108, 10, 133, 4, 168, 23, 200, 0, 130, 82, 8, 148, 53, 53, 53, 53, 53, 53, 53, 53, 53,
   53, 53, 53, 53, 53, 53, 53, 53, 53, 53, 53, 136, 13, 224, 182, 179, 167, 100, 0, 0, 128, 38,
   160, 151, 133, 95, 64, 38, 49, 240, 158, 96, 46, 92, 202, 220, 33, 149, 3, 240, 124, 221, 76,
   115, 178, 33, 91, 84, 24, 245, 42, 127, 219, 252, 217, 160, 37, 40, 27, 131, 204, 248, 197,
   71, 154, 45, 190, 227, 197, 77, 64, 47, 28, 82, 247, 114, 233, 232, 136, 191, 140, 44, 84,
   37, 171, 148, 133, 53]

/-- The EIP-155 example transaction. -/
def txA : Transaction :=
  { Nonce := 9
    Hash := "0x33469b22e9f636356c4160a87eb19df52b7412e8eac32a4a55ffe88ea8350788"
    Sender := .ok { Hex := senderS }
    MarshalBinary := .ok rawA }

/-- Same sender and nonce as `txA`, another hash. -/
def txB : Transaction :=
  { Nonce := 9
    Hash := "0xaced0ce3e84efccbb60f82c2aee0c3fa7023ff8c0f2d97057aa9adcff2728842"
    Sender := .ok { Hex := senderS }
    MarshalBinary := .ok rawB }

/-- Same sender as `txA`, nonce 10. -/
def txC : Transaction :=
  { Nonce := 10
    Hash := "0xecd9be0f22e313da4274fff05f1bf758088ae66f9406e4a8bc8309b49d003b3f"
    Sender := .ok { Hex := senderS }
    MarshalBinary := .ok rawC }

/-- The decoder restricted to the sample transactions. -/
def sampleUnmarshal (b : List Nat) : Except GoError Transaction :=
  if b = rawA then .ok txA
  else if b = rawB then .ok txB
  else if b = rawC then .ok txC
  else .error (.text "rlp: expected input list for types.LegacyTx")

/-- Lower-case rendering of `rawA`. -/
def hexA : String :=
  "0xf86c098504a817c800825208943535353535353535353535353535353535353535880de0b6b3a76400008025a028ef61340bd939bc2195fe537567866003e1a15d3c71ff63e1590620aa636276a067cbe9d8997f761aecb703304b3800ccf555c9f3dc64214b297fb1966a3b6d83"

/-- Lower-case rendering of `rawB`. -/
def hexB : String :=
  "0xf86c098504a817c800825208943535353535353535353535353535353535353535881bc16d674ec800008026a0bb50e2d89a4ed70663d080659fe0ad4b9bc3e06c17a227433966cb59ceee020da05368703b6b68d7534089efb5d2566199b3a54153ba5ab45c68e612c1209f8113"

/-- The encoding `rawA` written with upper-case digits behind the prefix `0x`. -/
def hexAUpperDigits : String :=
  "0xF86C098504A817C800825208943535353535353535353535353535353535353535880DE0B6B3A76400008025A028EF61340BD939BC2195FE537567866003E1A15D3C71FF63E1590620AA636276A067CBE9D8997F761AECB703304B3800CCF555C9F3DC64214B297FB1966A3B6D83"

/-- The encoding `rawA` written with lower-case digits behind the prefix `0X`. -/
def hexAUpperPrefix : String :=
  "0Xf86c098504a817c800825208943535353535353535353535353535353535353535880de0b6b3a76400008025a028ef61340bd939bc2195fe537567866003e1a15d3c71ff63e1590620aa636276a067cbe9d8997f761aecb703304b3800ccf555c9f3dc64214b297fb1966a3b6d83"

/-- A relay that accepts every bundle. -/
def relayAccepts : Relay := fun _ req =>
  .ok { Id := req.Id, Result := .str "0xbundle", Error := .null, Message := .null,
        Version := "2.0" }

/-- A relay that cannot be reached. -/
def relayDown : Relay := fun _ _ => .error (.text "connection refused")

/-- A request for `eth_sendRawTransaction` with id 7 and one parameter. -/
def rawTxRequest (param : Value) : JsonRpcRequest :=
  { Id := .num 7, Method := "eth_sendRawTransaction", Params := [param], Version := "2.0" }

/-- A relayer whose registry holds the given entries. -/
def relayerWith (reg : Registry) : PrivateTxRelayer :=
  { Url := "https://relay.example", id := 1000000000, txByFromAndNonce := reg, posted := [] }

/-- A head tracker at the given height with one subscriber of capacity 10. -/
def headAt (n : Nat) : BlockchainManager :=
  { latestBlockNumber := n, blockSubs := [{ cap := 10, buf := [] }] }

/-- A node that serves an empty block for every number. -/
def sampleNode (n : Nat) : Except GoError Block := .ok { NumberU64 := n, Transactions := [] }

/-! ## Lemmas on maps -/

set_option maxRecDepth 100000

theorem mapIndex_mapAssign {κ ν : Type} [DecidableEq κ] (m : List (κ × ν)) (k k' : κ) (v : ν) :
    mapIndex (mapAssign m k v) k' = if k = k' then some v else mapIndex m k' := by
  induction m with
  | nil => simp [mapAssign, mapIndex]
  | cons p m ih =>
    obtain ⟨a, b⟩ := p
    by_cases h : a = k
    · subst h
      by_cases h' : a = k' <;> simp [mapAssign, mapIndex, h']
    · by_cases h' : a = k'
      · subst h'
        simp [mapAssign, mapIndex, h, Ne.symm h]
      · simp [mapAssign, mapIndex, h, h', ih]

theorem mapIndex_mapDelete {κ ν : Type} [DecidableEq κ] (m : List (κ × ν)) (k k' : κ) :
    mapIndex (mapDelete m k) k' = if k = k' then none else mapIndex m k' := by
  induction m with
  | nil => simp [mapDelete, mapIndex]
  | cons p m ih =>
    obtain ⟨a, b⟩ := p
    by_cases h : a = k
    · subst h
      by_cases h' : a = k'
      · subst h'
        simpa [mapDelete, mapIndex] using ih
      · simp [mapDelete, mapIndex, h', ih]
    · by_cases h' : a = k'
      · subst h'
        simp [mapDelete, mapIndex, h, Ne.symm h]
      · simp [mapDelete, mapIndex, h, h', ih]

theorem mapIndex_map {κ ν : Type} [DecidableEq κ] (f : ν → ν) (m : List (κ × ν)) (k : κ) :
    mapIndex (m.map (fun q => (q.1, f q.2))) k = (mapIndex m k).map f := by
  induction m with
  | nil => simp [mapIndex]
  | cons p m ih =>
    obtain ⟨a, b⟩ := p
    by_cases h : a = k <;> simp [mapIndex, h, ih]

/-- Effect of `removePendingTransaction` on the slots, sender recovered. -/
theorem entryAt_remove_ok (r : PrivateTxRelayer) (tx : Transaction) (s : String)
    (hs : From tx = .ok s) (s' : String) (n' : Nat) :
    entryAt (removePendingTransaction r tx).1.txByFromAndNonce s' n' =
      if s = s' ∧ tx.Nonce = n' then none else entryAt r.txByFromAndNonce s' n' := by
  cases hidx : mapIndex r.txByFromAndNonce s with
  | none =>
    simp only [removePendingTransaction, hs, hidx]
    by_cases h : s = s'
    · subst h
      simp [entryAt, hidx]
    · simp [h]
  | some inner =>
    simp only [removePendingTransaction, hs, hidx, entryAt, mapIndex_mapAssign]
    by_cases h : s = s'
    · subst h
      simp only [if_true, true_and, hidx, mapIndex_mapDelete]
    · simp [h]

theorem entryAt_remove_error (r : PrivateTxRelayer) (tx : Transaction) (e : GoError)
    (hs : From tx = .error e) : (removePendingTransaction r tx).1 = r := by
  simp [removePendingTransaction, hs]

theorem removePhase_frame (r : PrivateTxRelayer) (txs : List Transaction) :
    (removePhase r txs).posted = r.posted ∧ (removePhase r txs).id = r.id ∧
      (removePhase r txs).Url = r.Url := by
  induction txs generalizing r with
  | nil => simp [removePhase]
  | cons tx txs ih =>
    have h1 : (removePendingTransaction r tx).1.posted = r.posted ∧
        (removePendingTransaction r tx).1.id = r.id ∧
        (removePendingTransaction r tx).1.Url = r.Url := by
      cases hs : From tx with
      | error e => simp [removePendingTransaction, hs]
      | ok s =>
        cases hidx : mapIndex r.txByFromAndNonce s <;> simp [removePendingTransaction, hs, hidx]
    have h2 := ih (removePendingTransaction r tx).1
    simp only [removePhase]
    exact ⟨h2.1.trans h1.1, h2.2.1.trans h1.2.1, h2.2.2.trans h1.2.2⟩

/-- A slot that is empty stays empty through the removal phase. -/
theorem entryAt_removePhase_none (r : PrivateTxRelayer) (txs : List Transaction) (s : String)
    (n : Nat) (h : entryAt r.txByFromAndNonce s n = none) :
    entryAt (removePhase r txs).txByFromAndNonce s n = none := by
  induction txs generalizing r with
  | nil => simpa [removePhase] using h
  | cons tx txs ih =>
    simp only [removePhase]
    apply ih
    cases hs : From tx with
    | error e => rw [entryAt_remove_error r tx e hs]; exact h
    | ok s0 =>
      rw [entryAt_remove_ok r tx s0 hs]
      split
      · rfl
      · exact h

/-- The removal phase empties the slot of every transaction of the block whose
sender is recovered. -/
theorem entryAt_removePhase_mem (r : PrivateTxRelayer) (txs : List Transaction) (T : Transaction)
    (s : String) (hT : T ∈ txs) (hs : From T = .ok s) :
    entryAt (removePhase r txs).txByFromAndNonce s T.Nonce = none := by
  induction txs generalizing r with
  | nil => cases hT
  | cons tx txs ih =>
    simp only [removePhase]
    rcases List.mem_cons.1 hT with h | h
    · subst h
      apply entryAt_removePhase_none
      rw [entryAt_remove_ok r T s hs]
      simp
    · exact ih _ h

/-- The removal phase leaves alone every slot that no transaction of the block names. -/
theorem entryAt_removePhase_other (r : PrivateTxRelayer) (txs : List Transaction) (s : String)
    (n : Nat) (h : ∀ T ∈ txs, ¬ (From T = .ok s ∧ T.Nonce = n)) :
    entryAt (removePhase r txs).txByFromAndNonce s n = entryAt r.txByFromAndNonce s n := by
  induction txs generalizing r with
  | nil => simp [removePhase]
  | cons tx txs ih =>
    simp only [removePhase]
    rw [ih _ (fun T hT => h T (List.mem_cons_of_mem _ hT))]
    cases hs : From tx with
    | error e => rw [entryAt_remove_error r tx e hs]
    | ok s0 =>
      rw [entryAt_remove_ok r tx s0 hs]
      have h0 := h tx (List.mem_cons_self _ _)
      rw [hs] at h0
      have : ¬ (s0 = s ∧ tx.Nonce = n) := by
        rintro ⟨rfl, hn⟩
        exact h0 ⟨rfl, hn⟩
      simp [this]

theorem SendBundle_fst (relay : Relay) (r : PrivateTxRelayer) (rawTxs : List String) (bn : Nat) :
    (SendBundle relay r rawTxs bn).1 =
      { r with id := u64 (r.id + 1),
               posted := r.posted ++ [bundleRequest (u64 (r.id + 1)) rawTxs bn] } := by
  cases hrel : relay r.posted (bundleRequest (u64 (r.id + 1)) rawTxs bn) with
  | error e => simp [SendBundle, hrel]
  | ok resp => by_cases h : resp.Error = Value.null <;> simp [SendBundle, hrel, h]

theorem resendEntry_snd (relay : Relay) (bn : Nat) (r : PrivateTxRelayer)
    (e : PendingTransaction) : (resendEntry relay bn r e).2 = bump bn e := by
  unfold resendEntry bump
  by_cases h : e.BlockNumber > bn
  · simp [h]
  · simp only [h, if_false]
    cases e.Tx.MarshalBinary <;> rfl

theorem resendEntry_relay (relay relay2 : Relay) (bn : Nat) (r : PrivateTxRelayer)
    (e : PendingTransaction) : resendEntry relay bn r e = resendEntry relay2 bn r e := by
  unfold resendEntry
  by_cases h : e.BlockNumber > bn
  · simp [h]
  · simp only [h, if_false]
    cases e.Tx.MarshalBinary with
    | error _ => rfl
    | ok b => simp only [SendBundle_fst]

theorem resendNonces_relay (relay relay2 : Relay) (bn : Nat) (r : PrivateTxRelayer)
    (m : List (Nat × PendingTransaction)) :
    resendNonces relay bn r m = resendNonces relay2 bn r m := by
  induction m generalizing r with
  | nil => rfl
  | cons p m ih =>
    obtain ⟨k, e⟩ := p
    simp only [resendNonces, resendEntry_relay relay relay2, ih]

theorem resendSenders_relay (relay relay2 : Relay) (bn : Nat) (r : PrivateTxRelayer)
    (reg : Registry) : resendSenders relay bn r reg = resendSenders relay2 bn r reg := by
  induction reg generalizing r with
  | nil => rfl
  | cons p reg ih =>
    obtain ⟨k, m⟩ := p
    simp only [resendSenders, resendNonces_relay relay relay2, ih]

theorem txMonitorLoop_relay (relay relay2 : Relay) (r : PrivateTxRelayer) (block : Block) :
    txMonitorLoop relay r block = txMonitorLoop relay2 r block := by
  simp only [txMonitorLoop, resendPhase, resendSenders_relay relay relay2]

theorem resendNonces_snd (relay : Relay) (bn : Nat) (r : PrivateTxRelayer)
    (m : List (Nat × PendingTransaction)) :
    (resendNonces relay bn r m).2 = m.map (fun q => (q.1, bump bn q.2)) := by
  induction m generalizing r with
  | nil => rfl
  | cons p m ih =>
    obtain ⟨k, e⟩ := p
    simp only [resendNonces, resendEntry_snd, ih, List.map_cons]

theorem resendSenders_snd (relay : Relay) (bn : Nat) (r : PrivateTxRelayer) (reg : Registry) :
    (resendSenders relay bn r reg).2 =
      reg.map (fun p => (p.1, p.2.map (fun q => (q.1, bump bn q.2)))) := by
  induction reg generalizing r with
  | nil => rfl
  | cons p reg ih =>
    obtain ⟨k, m⟩ := p
    simp only [resendSenders, resendNonces_snd, ih, List.map_cons]

/-- The registry after the re-send phase: every entry passed through `bump`. -/
theorem resendPhase_registry (relay : Relay) (bn : Nat) (r : PrivateTxRelayer) :
    (resendPhase relay bn r).txByFromAndNonce =
      r.txByFromAndNonce.map (fun p => (p.1, p.2.map (fun q => (q.1, bump bn q.2)))) := by
  simp only [resendPhase, resendSenders_snd]

theorem entryAt_resendPhase (relay : Relay) (bn : Nat) (r : PrivateTxRelayer) (s : String)
    (n : Nat) :
    entryAt (resendPhase relay bn r).txByFromAndNonce s n =
      (entryAt r.txByFromAndNonce s n).map (bump bn) := by
  rw [resendPhase_registry]
  unfold entryAt
  have h1 : mapIndex (List.map (fun p => (p.1, List.map (fun q => (q.1, bump bn q.2)) p.2))
      r.txByFromAndNonce) s =
        (mapIndex r.txByFromAndNonce s).map (fun m => m.map (fun q => (q.1, bump bn q.2))) :=
    mapIndex_map (fun (m : List (Nat × PendingTransaction)) => m.map (fun q => (q.1, bump bn q.2)))
      r.txByFromAndNonce s
  rw [h1]
  cases mapIndex r.txByFromAndNonce s with
  | none => rfl
  | some inner => exact mapIndex_map (bump bn) inner n

theorem resendEntry_posted (relay : Relay) (bn : Nat) (hbn : bn + 1 < 2 ^ 64)
    (r : PrivateTxRelayer) (e : PendingTransaction) (hm : e.Tx.MarshalBinary.isOk = true) :
    ∃ calls, (resendEntry relay bn r e).1.posted = r.posted ++ calls ∧
      calls.map (fun q => (q.Method, q.Params)) =
        if e.BlockNumber ≤ bn then [resendCall bn e] else [] := by
  unfold resendEntry
  by_cases h : e.BlockNumber > bn
  · refine ⟨[], ?_, ?_⟩
    · simp [h]
    · simp [Nat.not_le.2 h]
  · have hu : u64 (bn + 1) = bn + 1 := Nat.mod_eq_of_lt hbn
    cases hb : e.Tx.MarshalBinary with
    | error err => simp [hb, Except.isOk, Except.toBool] at hm
    | ok b =>
      refine ⟨[bundleRequest (u64 (r.id + 1)) [hexutil.Encode b] (bn + 1)], ?_, ?_⟩
      · simp only [h, if_false, hb, SendBundle_fst, hu]
      · simp [Nat.le_of_not_gt h, resendCall, rawOf, hb, bundleRequest]

theorem resendNonces_posted (relay : Relay) (bn : Nat) (hbn : bn + 1 < 2 ^ 64)
    (r : PrivateTxRelayer) (m : List (Nat × PendingTransaction))
    (hm : ∀ q ∈ m, q.2.Tx.MarshalBinary.isOk = true) :
    ∃ calls, (resendNonces relay bn r m).1.posted = r.posted ++ calls ∧
      calls.map (fun q => (q.Method, q.Params)) =
        m.flatMap (fun q => if q.2.BlockNumber ≤ bn then [resendCall bn q.2] else []) := by
  induction m generalizing r with
  | nil => exact ⟨[], by simp [resendNonces], by simp⟩
  | cons p m ih =>
    obtain ⟨k, e⟩ := p
    obtain ⟨c1, h1, h1'⟩ := resendEntry_posted relay bn hbn r e (hm (k, e) (List.mem_cons_self _ _))
    obtain ⟨c2, h2, h2'⟩ := ih (resendEntry relay bn r e).1
      (fun q hq => hm q (List.mem_cons_of_mem _ hq))
    refine ⟨c1 ++ c2, ?_, ?_⟩
    · simp only [resendNonces, h2, h1, List.append_assoc]
    · simp only [List.map_append, h1', h2', List.flatMap_cons]

theorem resendSenders_posted (relay : Relay) (bn : Nat) (hbn : bn + 1 < 2 ^ 64)
    (r : PrivateTxRelayer) (reg : Registry)
    (hm : ∀ t ∈ entries reg, t.2.2.Tx.MarshalBinary.isOk = true) :
    ∃ calls, (resendSenders relay bn r reg).1.posted = r.posted ++ calls ∧
      calls.map (fun q => (q.Method, q.Params)) =
        (entries reg).flatMap
          (fun t => if t.2.2.BlockNumber ≤ bn then [resendCall bn t.2.2] else []) := by
  induction reg generalizing r with
  | nil => exact ⟨[], by simp [resendSenders], by simp [entries]⟩
  | cons p reg ih =>
    obtain ⟨s, m⟩ := p
    have hm1 : ∀ q ∈ m, q.2.Tx.MarshalBinary.isOk = true := by
      intro q hq
      apply hm (s, q.1, q.2)
      simp only [entries, List.flatMap_cons, List.mem_append, List.mem_map]
      exact Or.inl ⟨q, hq, rfl⟩
    have hm2 : ∀ t ∈ entries reg, t.2.2.Tx.MarshalBinary.isOk = true := by
      intro t ht
      apply hm t
      simp only [entries, List.flatMap_cons, List.mem_append]
      exact Or.inr ht
    obtain ⟨c1, h1, h1'⟩ := resendNonces_posted relay bn hbn r m hm1
    obtain ⟨c2, h2, h2'⟩ := ih (resendNonces relay bn r m).1 hm2
    refine ⟨c1 ++ c2, ?_, ?_⟩
    · simp only [resendSenders, h2, h1, List.append_assoc]
    · simp only [List.map_append, h1', h2', entries, List.flatMap_cons, List.flatMap_append,
        List.flatMap_map]

theorem slot_eq_nil_of_not_mem {κ ν : Type} [DecidableEq κ] (m : List (κ × ν)) (k : κ)
    (h : k ∉ m.map Prod.fst) : slot m k = [] := by
  unfold slot
  rw [List.filter_eq_nil_iff]
  intro q hq
  simp only [decide_eq_true_eq]
  intro hk
  exact h (List.mem_map.2 ⟨q, hq, hk⟩)

theorem slot_mapAssign_same {κ ν : Type} [DecidableEq κ] (m : List (κ × ν)) (k : κ) (v : ν)
    (hm : WFMap m) : slot (mapAssign m k v) k = [(k, v)] := by
  induction m with
  | nil => simp [mapAssign, slot]
  | cons p m ih =>
    obtain ⟨a, b⟩ := p
    have hnd : a ∉ m.map Prod.fst ∧ WFMap m := by
      simpa [WFMap] using hm
    by_cases h : a = k
    · subst h
      have := slot_eq_nil_of_not_mem m a hnd.1
      simp only [slot] at this
      simp [mapAssign, slot, this]
    · have := ih hnd.2
      simp only [slot] at this
      simp [mapAssign, slot, h, this]

theorem slot_mapAssign_other {κ ν : Type} [DecidableEq κ] (m : List (κ × ν)) (k k' : κ) (v : ν)
    (hk : k ≠ k') : slot (mapAssign m k v) k' = slot m k' := by
  induction m with
  | nil => simp [mapAssign, slot, hk]
  | cons p m ih =>
    obtain ⟨a, b⟩ := p
    simp only [slot] at ih
    by_cases h : a = k
    · subst h
      simp [mapAssign, slot, hk]
    · simp [mapAssign, slot, h, List.filter_cons, ih]

theorem mem_mapAssign {κ ν : Type} [DecidableEq κ] (m : List (κ × ν)) (k : κ) (v : ν)
    (p : κ × ν) (hp : p ∈ mapAssign m k v) : p ∈ m ∨ p = (k, v) := by
  induction m with
  | nil => simpa [mapAssign] using hp
  | cons q m ih =>
    obtain ⟨a, b⟩ := q
    by_cases h : a = k
    · simp only [mapAssign, h, if_true, List.mem_cons] at hp
      rcases hp with hp | hp
      · exact Or.inr hp
      · exact Or.inl (List.mem_cons_of_mem _ hp)
    · simp only [mapAssign, h, if_false, List.mem_cons] at hp
      rcases hp with hp | hp
      · exact Or.inl (hp ▸ List.mem_cons_self _ _)
      · rcases ih hp with h1 | h1
        · exact Or.inl (List.mem_cons_of_mem _ h1)
        · exact Or.inr h1

theorem keys_mapAssign {κ ν : Type} [DecidableEq κ] (m : List (κ × ν)) (k : κ) (v : ν) (a : κ)
    (ha : a ∈ (mapAssign m k v).map Prod.fst) : a ∈ m.map Prod.fst ∨ a = k := by
  obtain ⟨p, hp, rfl⟩ := List.mem_map.1 ha
  rcases mem_mapAssign m k v p hp with h | h
  · exact Or.inl (List.mem_map.2 ⟨p, h, rfl⟩)
  · exact Or.inr (by rw [h])

theorem WFMap_mapAssign {κ ν : Type} [DecidableEq κ] (m : List (κ × ν)) (k : κ) (v : ν)
    (hm : WFMap m) : WFMap (mapAssign m k v) := by
  induction m with
  | nil => simp [mapAssign, WFMap]
  | cons p m ih =>
    obtain ⟨a, b⟩ := p
    have hnd : a ∉ m.map Prod.fst ∧ WFMap m := by
      simpa [WFMap] using hm
    by_cases h : a = k
    · subst h
      simpa [mapAssign, WFMap] using hm
    · have h1 := ih hnd.2
      simp only [mapAssign, h, if_false, WFMap, List.map_cons, List.nodup_cons]
      refine ⟨?_, h1⟩
      intro hmem
      rcases keys_mapAssign m k v a hmem with h2 | h2
      · exact hnd.1 h2
      · exact h h2

theorem mapIndex_mem {κ ν : Type} [DecidableEq κ] (m : List (κ × ν)) (k : κ) (v : ν)
    (h : mapIndex m k = some v) : (k, v) ∈ m := by
  induction m with
  | nil => simp [mapIndex] at h
  | cons p m ih =>
    obtain ⟨a, b⟩ := p
    by_cases hk : a = k
    · subst hk
      simp only [mapIndex, if_true, Option.some.injEq] at h
      subst h
      exact List.mem_cons_self _ _
    · simp only [mapIndex, hk, if_false] at h
      exact List.mem_cons_of_mem _ (ih h)

theorem slot_of_mapIndex_some {κ ν : Type} [DecidableEq κ] (m : List (κ × ν)) (k : κ) (v : ν)
    (hm : WFMap m) (h : mapIndex m k = some v) : slot m k = [(k, v)] := by
  induction m with
  | nil => simp [mapIndex] at h
  | cons p m ih =>
    obtain ⟨a, b⟩ := p
    have hnd : a ∉ m.map Prod.fst ∧ WFMap m := by
      simpa [WFMap] using hm
    by_cases hk : a = k
    · subst hk
      simp only [mapIndex, if_true, Option.some.injEq] at h
      subst h
      have := slot_eq_nil_of_not_mem m a hnd.1
      simp only [slot] at this
      simp [slot, this]
    · simp only [mapIndex, hk, if_false] at h
      have := ih hnd.2 h
      simp only [slot] at this
      simp [slot, hk, this]

theorem slot_of_mapIndex_none {κ ν : Type} [DecidableEq κ] (m : List (κ × ν)) (k : κ)
    (h : mapIndex m k = none) : slot m k = [] := by
  induction m with
  | nil => rfl
  | cons p m ih =>
    obtain ⟨a, b⟩ := p
    by_cases hk : a = k
    · simp [mapIndex, hk] at h
    · simp only [mapIndex, hk, if_false] at h
      have := ih h
      simp only [slot] at this
      simp [slot, hk, this]

theorem slotEntries_eq (reg : Registry) (s : String) (n : Nat) :
    slotEntries reg s n = (slot reg s).flatMap (fun p => (slot p.2 n).map Prod.snd) := by
  induction reg with
  | nil => rfl
  | cons p reg ih =>
    obtain ⟨a, m⟩ := p
    have hhead : (List.filter (fun t : String × Nat × PendingTransaction =>
        decide (t.1 = s ∧ t.2.1 = n)) (m.map (fun q => (a, q.1, q.2)))).map (fun t => t.2.2) =
        if a = s then (slot m n).map Prod.snd else [] := by
      by_cases h : a = s
      · simp only [h, if_true, slot, List.filter_map, List.map_map]
        congr 1
        apply List.filter_congr
        intro q _
        simp
      · simp only [h, if_false, List.map_eq_nil_iff, List.filter_eq_nil_iff]
        intro t ht
        obtain ⟨q, _, rfl⟩ := List.mem_map.1 ht
        simp [h]
    unfold slotEntries at ih ⊢
    simp only [entries, List.flatMap_cons, List.filter_append, List.map_append] at ih ⊢
    rw [hhead, ih]
    by_cases h : a = s
    · simp [slot, h]
    · simp [slot, h]

theorem mapAssign_idem {κ ν : Type} [DecidableEq κ] (m : List (κ × ν)) (k : κ) (v w : ν) :
    mapAssign (mapAssign m k v) k w = mapAssign m k w := by
  induction m with
  | nil => simp [mapAssign]
  | cons p m ih =>
    obtain ⟨a, b⟩ := p
    by_cases h : a = k
    · simp [mapAssign, h]
    · simp [mapAssign, h, ih]

theorem addPendingTransaction_ok (r : PrivateTxRelayer) (tx : Transaction) (bn : Nat)
    (s : String) (hs : From tx = .ok s) :
    addPendingTransaction r tx bn =
      ({ r with txByFromAndNonce := added r.txByFromAndNonce s tx bn }, none) := by
  cases hidx : mapIndex r.txByFromAndNonce s with
  | none =>
    simp [addPendingTransaction, hs, hidx, added, mapIndex_mapAssign, mapAssign_idem]
  | some inner =>
    simp [addPendingTransaction, hs, hidx, added]

theorem entryAt_added (reg : Registry) (s : String) (tx : Transaction) (bn : Nat) (s' : String)
    (n' : Nat) :
    entryAt (added reg s tx bn) s' n' =
      if s = s' ∧ tx.Nonce = n' then some { Tx := tx, BlockNumber := bn } else entryAt reg s' n' := by
  unfold entryAt added
  rw [mapIndex_mapAssign]
  by_cases h : s = s'
  · subst h
    simp only [if_true, true_and, mapIndex_mapAssign]
    by_cases h' : tx.Nonce = n'
    · simp [h']
    · cases mapIndex reg s <;> simp [h', mapIndex]
  · simp [h]

theorem WF_added (reg : Registry) (s : String) (tx : Transaction) (bn : Nat) (h : WF reg) :
    WF (added reg s tx bn) := by
  have hinner : WFMap ((mapIndex reg s).getD []) := by
    cases hidx : mapIndex reg s with
    | none => simp [WFMap]
    | some inner => exact h.2 _ (mapIndex_mem reg s inner hidx)
  refine ⟨WFMap_mapAssign _ _ _ h.1, ?_⟩
  intro p hp
  rcases mem_mapAssign _ _ _ p hp with h1 | h1
  · exact h.2 p h1
  · rw [h1]
    exact WFMap_mapAssign _ _ _ hinner

theorem slotEntries_added_same (reg : Registry) (s : String) (tx : Transaction) (bn : Nat)
    (h : WF reg) :
    slotEntries (added reg s tx bn) s tx.Nonce = [{ Tx := tx, BlockNumber := bn }] := by
  have hinner : WFMap ((mapIndex reg s).getD []) := by
    cases hidx : mapIndex reg s with
    | none => simp [WFMap]
    | some inner => exact h.2 _ (mapIndex_mem reg s inner hidx)
  rw [slotEntries_eq]
  unfold added
  rw [slot_mapAssign_same _ _ _ h.1]
  simp [slot_mapAssign_same _ _ _ hinner]

theorem slotEntries_added_other (reg : Registry) (s : String) (tx : Transaction) (bn : Nat)
    (h : WF reg) (s' : String) (n' : Nat) (hne : ¬ (s = s' ∧ tx.Nonce = n')) :
    slotEntries (added reg s tx bn) s' n' = slotEntries reg s' n' := by
  rw [slotEntries_eq, slotEntries_eq]
  unfold added
  by_cases hs : s = s'
  · subst hs
    have hn : tx.Nonce ≠ n' := fun hn => hne ⟨rfl, hn⟩
    rw [slot_mapAssign_same _ _ _ h.1]
    cases hidx : mapIndex reg s with
    | none =>
      rw [slot_of_mapIndex_none reg s hidx]
      simp [mapAssign, slot, hn]
    | some inner =>
      simp [slot_of_mapIndex_some reg s inner h.1 hidx, slot_mapAssign_other _ _ _ _ hn]
  · rw [slot_mapAssign_other _ _ _ _ hs]

/-! ## Lemmas on the two phases of `txMonitorLoop` and on `SendRawTransaction` -/

theorem u64_succ (n : Nat) (h : n + 1 < 2 ^ 64) : u64 (n + 1) = n + 1 :=
  Nat.mod_eq_of_lt h

/-- After the removal phase a slot is empty or holds what it held before. -/
theorem entryAt_removePhase_cases (r : PrivateTxRelayer) (txs : List Transaction) (s : String)
    (n : Nat) :
    entryAt (removePhase r txs).txByFromAndNonce s n = none ∨
      entryAt (removePhase r txs).txByFromAndNonce s n = entryAt r.txByFromAndNonce s n := by
  induction txs generalizing r with
  | nil => exact Or.inr rfl
  | cons tx txs ih =>
    simp only [removePhase]
    rcases ih (removePendingTransaction r tx).1 with h | h
    · exact Or.inl h
    · rw [h]
      cases hs : From tx with
      | error e =>
        rw [entryAt_remove_error r tx e hs]
        exact Or.inr rfl
      | ok s0 =>
        rw [entryAt_remove_ok r tx s0 hs]
        by_cases hc : s0 = s ∧ tx.Nonce = n
        · rw [if_pos hc]
          exact Or.inl rfl
        · rw [if_neg hc]
          exact Or.inr rfl

theorem SendBundle_eq (relay : Relay) (r : PrivateTxRelayer) (rawTxs : List String) (bn : Nat) :
    SendBundle relay r rawTxs bn =
      ({ r with id := u64 (r.id + 1),
                posted := r.posted ++ [bundleRequest (u64 (r.id + 1)) rawTxs bn] },
        (SendBundle relay r rawTxs bn).2) := by
  rw [← SendBundle_fst relay r rawTxs bn]

/-- `SendRawTransaction` on a decodable parameter when `SendBundle` fails. -/
theorem SendRawTransaction_relay_error
    (UnmarshalBinary : List Nat → Except GoError Transaction)
    (relay : Relay) (bm : BlockchainManager) (r : PrivateTxRelayer) (req : JsonRpcRequest)
    (rawTxHex : String) (rest : List Value) (rawTxBytes : List Nat) (tx : Transaction)
    (err : GoError)
    (hp : req.Params = .str rawTxHex :: rest)
    (hlen : 2 ≤ (goBytes rawTxHex).length)
    (hhex : hex.DecodeString ((goBytes rawTxHex).drop 2) = some rawTxBytes)
    (htx : UnmarshalBinary rawTxBytes = .ok tx)
    (herr : (SendBundle relay r [rawTxHex] (u64 (GetLatestBlockNumber bm + 1))).2 = some err) :
    SendRawTransaction UnmarshalBinary relay bm r req =
      ({ r with id := u64 (r.id + 1),
                posted := r.posted ++
                  [bundleRequest (u64 (r.id + 1)) [rawTxHex] (u64 (GetLatestBlockNumber bm + 1))] },
        .error err) := by
  unfold SendRawTransaction
  simp only [hp, Nat.not_lt.2 hlen, if_false, hhex, htx]
  rw [SendBundle_eq, herr]

/-- `SendRawTransaction` on a decodable parameter when `SendBundle` succeeds and
the sender is recovered. -/
theorem SendRawTransaction_accepted
    (UnmarshalBinary : List Nat → Except GoError Transaction)
    (relay : Relay) (bm : BlockchainManager) (r : PrivateTxRelayer) (req : JsonRpcRequest)
    (rawTxHex : String) (rest : List Value) (rawTxBytes : List Nat) (tx : Transaction)
    (sender : String)
    (hp : req.Params = .str rawTxHex :: rest)
    (hlen : 2 ≤ (goBytes rawTxHex).length)
    (hhex : hex.DecodeString ((goBytes rawTxHex).drop 2) = some rawTxBytes)
    (htx : UnmarshalBinary rawTxBytes = .ok tx)
    (hs : From tx = .ok sender)
    (hrelay : (SendBundle relay r [rawTxHex] (u64 (GetLatestBlockNumber bm + 1))).2 = none) :
    SendRawTransaction UnmarshalBinary relay bm r req =
      ({ r with id := u64 (r.id + 1),
                posted := r.posted ++
                  [bundleRequest (u64 (r.id + 1)) [rawTxHex] (u64 (GetLatestBlockNumber bm + 1))],
                txByFromAndNonce :=
                  added r.txByFromAndNonce sender tx (u64 (GetLatestBlockNumber bm + 1)) },
        .ok { Id := req.Id, Result := .str tx.Hash, Error := .null, Message := .null,
              Version := "2.0" }) := by
  unfold SendRawTransaction
  simp only [hp, Nat.not_lt.2 hlen, if_false, hhex, htx]
  rw [SendBundle_eq, hrelay]
  simp only [addPendingTransaction_ok _ tx _ sender hs]

/-- `hex.DecodeString` fails exactly on the byte strings that are not an even
number of hexadecimal digits. -/
theorem DecodeString_eq_none_iff : ∀ b : List Nat,
    hex.DecodeString b = none ↔ isHexBody b = false
  | [] => by simp [hex.DecodeString, isHexBody]
  | [a] => by simp [hex.DecodeString, isHexBody]
  | a :: b :: rest => by
    have ih := DecodeString_eq_none_iff rest
    have hlen : (a :: b :: rest).length % 2 = rest.length % 2 := by
      simp only [List.length_cons]
      omega
    unfold isHexBody at ih ⊢
    rw [hlen]
    cases ha : fromHexChar a with
    | none => simp [hex.DecodeString, ha]
    | some x =>
      cases hb : fromHexChar b with
      | none => simp [hex.DecodeString, ha, hb]
      | some y =>
        cases hr : hex.DecodeString rest with
        | none =>
          have := ih.1 hr
          simp only [hex.DecodeString, ha, hb, hr, List.all_cons, Option.isSome_some,
            Bool.true_and, true_iff]
          exact this
        | some t =>
          have h1 : ¬ ((rest.length % 2 == 0 && rest.all (fun c => (fromHexChar c).isSome))
              = false) := fun h => by
            have := ih.2 h
            rw [hr] at this
            cases this
          simp only [hex.DecodeString, ha, hb, hr, List.all_cons, Option.isSome_some,
            Bool.true_and]
          constructor
          · intro h
            cases h
          · intro h
            exact absurd h h1

/-- One transaction of a block against a registry with a single slot. -/
theorem remove_single (r : PrivateTxRelayer) (T : Transaction) (s : String) (k : Nat)
    (e : PendingTransaction) (h : r.txByFromAndNonce = [(s, [(k, e)])]) :
    (removePendingTransaction r T).1.txByFromAndNonce =
      if From T = .ok s ∧ T.Nonce = k then [(s, [])] else [(s, [(k, e)])] := by
  cases hs : From T with
  | error err => simp [removePendingTransaction, hs, h]
  | ok s0 =>
    by_cases h1 : s = s0
    · subst h1
      by_cases h2 : k = T.Nonce
      · subst h2
        simp [removePendingTransaction, hs, h, mapIndex, mapAssign, mapDelete]
      · simp [removePendingTransaction, hs, h, mapIndex, mapAssign, mapDelete, h2, Ne.symm h2]
    · have h3 : ¬ s0 = s := fun h3 => h1 h3.symm
      simp [removePendingTransaction, hs, h, mapIndex, h1, h3]

theorem remove_single_empty (r : PrivateTxRelayer) (T : Transaction) (s : String)
    (h : r.txByFromAndNonce = [(s, [])]) :
    (removePendingTransaction r T).1.txByFromAndNonce = [(s, [])] := by
  cases hs : From T with
  | error err => simp [removePendingTransaction, hs, h]
  | ok s0 =>
    by_cases h1 : s = s0
    · subst h1
      simp [removePendingTransaction, hs, h, mapIndex, mapAssign, mapDelete]
    · simp [removePendingTransaction, hs, h, mapIndex, h1]

theorem removePhase_single_empty (r : PrivateTxRelayer) (txs : List Transaction) (s : String)
    (h : r.txByFromAndNonce = [(s, [])]) :
    (removePhase r txs).txByFromAndNonce = [(s, [])] := by
  induction txs generalizing r with
  | nil => simpa [removePhase] using h
  | cons T txs ih => exact ih _ (remove_single_empty r T s h)

/-- The removal phase on a registry with a single slot: the slot survives exactly
when no transaction of the block names it. -/
theorem removePhase_single (r : PrivateTxRelayer) (txs : List Transaction) (s : String)
    (k : Nat) (e : PendingTransaction) (h : r.txByFromAndNonce = [(s, [(k, e)])]) :
    (removePhase r txs).txByFromAndNonce =
      if (∀ T ∈ txs, ¬ (From T = .ok s ∧ T.Nonce = k)) then [(s, [(k, e)])] else [(s, [])] := by
  induction txs generalizing r with
  | nil => simpa [removePhase] using h
  | cons T txs ih =>
    have h1 := remove_single r T s k e h
    by_cases hT : From T = .ok s ∧ T.Nonce = k
    · rw [if_pos hT] at h1
      have h2 := removePhase_single_empty _ txs s h1
      simp only [removePhase, h2]
      rw [if_neg]
      intro hall
      exact hall T (List.mem_cons_self _ _) hT
    · rw [if_neg hT] at h1
      simp only [removePhase, ih _ h1]
      by_cases hall : ∀ T ∈ txs, ¬ (From T = .ok s ∧ T.Nonce = k)
      · rw [if_pos hall, if_pos]
        intro T1 hT1
        rcases List.mem_cons.1 hT1 with h3 | h3
        · rw [h3]
          exact hT
        · exact hall T1 h3
      · rw [if_neg hall, if_neg]
        intro hall2
        exact hall (fun T1 hT1 => hall2 T1 (List.mem_cons_of_mem _ hT1))

/-- The requests of a pass over a registry with a single slot. -/
theorem txMonitorLoop_single_posted (relay : Relay) (r : PrivateTxRelayer) (block : Block)
    (s : String) (k : Nat) (e : PendingTransaction)
    (h : r.txByFromAndNonce = [(s, [(k, e)])]) :
    (txMonitorLoop relay r block).posted =
      r.posted ++
        if (∀ T ∈ block.Transactions, ¬ (From T = .ok s ∧ T.Nonce = k)) ∧
            e.BlockNumber ≤ block.NumberU64 then
          match e.Tx.MarshalBinary with
          | .ok raw =>
            [bundleRequest (u64 (r.id + 1)) [hexutil.Encode raw] (u64 (block.NumberU64 + 1))]
          | .error _ => []
        else [] := by
  have hreg := removePhase_single r block.Transactions s k e h
  have hfr := removePhase_frame r block.Transactions
  by_cases hall : ∀ T ∈ block.Transactions, ¬ (From T = .ok s ∧ T.Nonce = k)
  · rw [if_pos hall] at hreg
    by_cases hdue : e.BlockNumber ≤ block.NumberU64
    · rw [if_pos (And.intro hall hdue)]
      cases hmb : e.Tx.MarshalBinary with
      | error err =>
        simp [txMonitorLoop, resendPhase, hreg, resendSenders, resendNonces, resendEntry,
          Nat.not_lt.2 hdue, hmb, hfr.1]
      | ok raw =>
        simp [txMonitorLoop, resendPhase, hreg, resendSenders, resendNonces, resendEntry,
          Nat.not_lt.2 hdue, hmb, hfr.1, hfr.2.1, SendBundle_fst]
    · rw [if_neg (fun hc => hdue hc.2)]
      simp [txMonitorLoop, resendPhase, hreg, resendSenders, resendNonces, resendEntry,
        Nat.lt_of_not_le hdue, hfr.1]
  · rw [if_neg hall] at hreg
    rw [if_neg (fun hc => hall hc.1)]
    simp [txMonitorLoop, resendPhase, hreg, resendSenders, resendNonces, hfr.1]

/-! ## The properties -/

/-- C1. Inclusion cancellation: after a block has been processed by `txMonitorLoop`
(removal phase, then re-send phase), the registry has no entry at
`(From(T), T.Nonce())` for any transaction `T` of the block whose sender is
recovered; the hash of `T` plays no part. -/
theorem inclusion_cancellation (relay : Relay) (r : PrivateTxRelayer) (block : Block)
    (T : Transaction) (sender : String) (hT : T ∈ block.Transactions)
    (hs : From T = .ok sender) :
    entryAt (txMonitorLoop relay r block).txByFromAndNonce sender T.Nonce = none := by
  unfold txMonitorLoop
  rw [entryAt_resendPhase, entryAt_removePhase_mem r block.Transactions T sender hT hs]
  rfl

/-- Scenario 2: the pending entry of `txA` is cancelled by block 101, which contains `txB`, a transaction of the same sender and nonce with another hash. -/
theorem inclusion_cancellation_witness :
    txB ∈ [txB] ∧ From txB = .ok senderS ∧ txB.Hash ≠ txA.Hash ∧
      entryAt (relayerWith [(senderS, [(9, { Tx := txA, BlockNumber := 101 })])]).txByFromAndNonce
        senderS 9 = some { Tx := txA, BlockNumber := 101 } ∧
      entryAt (txMonitorLoop relayAccepts
        (relayerWith [(senderS, [(9, { Tx := txA, BlockNumber := 101 })])])
        { NumberU64 := 101, Transactions := [txB] }).txByFromAndNonce senderS txB.Nonce = none :=
  ⟨by decide, by decide, by decide, by decide,
    inclusion_cancellation relayAccepts
      (relayerWith [(senderS, [(9, { Tx := txA, BlockNumber := 101 })])])
      { NumberU64 := 101, Transactions := [txB] } txB senderS (by decide) (by decide)⟩

/-- C2. Persistence of intent: an entry whose `(sender, nonce)` matches no
transaction of the delivered block is still in the registry at that pair, with
the same transaction, after the block has been processed; and the whole state
after the pass (registry, requests made, id counter) does not depend on what
the relay answers, so an error for one entry does not cut the sweep short. -/
theorem persistence_of_intent (relay : Relay) (r : PrivateTxRelayer) (block : Block)
    (sender : String) (nonce : Nat) (e : PendingTransaction)
    (he : entryAt r.txByFromAndNonce sender nonce = some e)
    (hno : ∀ T ∈ block.Transactions, ¬ (From T = .ok sender ∧ T.Nonce = nonce)) :
    (∃ bn, entryAt (txMonitorLoop relay r block).txByFromAndNonce sender nonce =
        some { Tx := e.Tx, BlockNumber := bn }) ∧
      ∀ relay2 : Relay, txMonitorLoop relay2 r block = txMonitorLoop relay r block := by
  refine ⟨?_, fun relay2 => txMonitorLoop_relay relay2 relay r block⟩
  unfold txMonitorLoop
  rw [entryAt_resendPhase, entryAt_removePhase_other r block.Transactions sender nonce hno, he]
  refine ⟨(bump block.NumberU64 e).BlockNumber, ?_⟩
  simp only [Option.map_some', bump]
  split <;> rfl

/-- Two pending entries, a relay that is down, and a block that consumes nonce 9: the entry at nonce 10 stays. -/
theorem persistence_of_intent_witness :
    entryAt (relayerWith [(senderS, [(9, { Tx := txA, BlockNumber := 101 }),
        (10, { Tx := txC, BlockNumber := 101 })])]).txByFromAndNonce senderS 10 =
        some { Tx := txC, BlockNumber := 101 } ∧
      (∀ T ∈ [txB], ¬ (From T = .ok senderS ∧ T.Nonce = 10)) ∧
      ((∃ bn, entryAt (txMonitorLoop relayDown
          (relayerWith [(senderS, [(9, { Tx := txA, BlockNumber := 101 }),
            (10, { Tx := txC, BlockNumber := 101 })])])
          { NumberU64 := 101, Transactions := [txB] }).txByFromAndNonce senderS 10 =
            some { Tx := txC, BlockNumber := bn }) ∧
        ∀ relay2 : Relay, txMonitorLoop relay2
          (relayerWith [(senderS, [(9, { Tx := txA, BlockNumber := 101 }),
            (10, { Tx := txC, BlockNumber := 101 })])])
          { NumberU64 := 101, Transactions := [txB] } =
          txMonitorLoop relayDown
            (relayerWith [(senderS, [(9, { Tx := txA, BlockNumber := 101 }),
              (10, { Tx := txC, BlockNumber := 101 })])])
            { NumberU64 := 101, Transactions := [txB] }) :=
  ⟨by decide, by decide,
    persistence_of_intent relayDown
      (relayerWith [(senderS, [(9, { Tx := txA, BlockNumber := 101 }),
        (10, { Tx := txC, BlockNumber := 101 })])])
      { NumberU64 := 101, Transactions := [txB] } senderS 10
      { Tx := txC, BlockNumber := 101 } (by decide) (by decide)⟩

/-- C3, as amended. Target advance: let `n` be the number of the delivered block,
`n < 2 ^ 64 - 1`. Every entry the pass wrote to (one that was in the registry
with `BlockNumber <= n` and is still there after the pass) ends with
`BlockNumber = n + 1`, strictly greater than `n`; it is strictly greater than
a head number `latest` whenever `latest <= n`. -/
theorem target_advance_block (relay : Relay) (r : PrivateTxRelayer) (block : Block)
    (latest : Nat) (sender : String) (nonce : Nat) (e e1 : PendingTransaction)
    (hn : block.NumberU64 + 1 < 2 ^ 64)
    (he : entryAt r.txByFromAndNonce sender nonce = some e)
    (hw : e.BlockNumber ≤ block.NumberU64)
    (he1 : entryAt (txMonitorLoop relay r block).txByFromAndNonce sender nonce = some e1) :
    e1.BlockNumber = block.NumberU64 + 1 ∧ block.NumberU64 < e1.BlockNumber ∧
      (latest ≤ block.NumberU64 → latest < e1.BlockNumber) := by
  unfold txMonitorLoop at he1
  rw [entryAt_resendPhase] at he1
  have hb : e1 = bump block.NumberU64 e := by
    rcases entryAt_removePhase_cases r block.Transactions sender nonce with h | h
    · rw [h] at he1
      cases he1
    · rw [h, he] at he1
      simpa using he1.symm
  have hbn : e1.BlockNumber = block.NumberU64 + 1 := by
    rw [hb]
    simp [bump, Nat.not_lt.2 hw, u64_succ _ hn]
  refine ⟨hbn, ?_, ?_⟩
  · omega
  · intro hl
    omega

/-- Block 101 and an entry at target 101: the entry ends at 102. -/
theorem target_advance_block_witness :
    (101 + 1 < 2 ^ 64 ∧
      entryAt (relayerWith [(senderS, [(9, { Tx := txA, BlockNumber := 101 })])]).txByFromAndNonce
        senderS 9 = some { Tx := txA, BlockNumber := 101 } ∧
      entryAt (txMonitorLoop relayAccepts
        (relayerWith [(senderS, [(9, { Tx := txA, BlockNumber := 101 })])])
        { NumberU64 := 101, Transactions := [] }).txByFromAndNonce senderS 9 =
          some { Tx := txA, BlockNumber := 102 }) ∧
      (PendingTransaction.BlockNumber { Tx := txA, BlockNumber := 102 } = 101 + 1 ∧
        101 < PendingTransaction.BlockNumber { Tx := txA, BlockNumber := 102 } ∧
        (101 ≤ 101 → 101 < PendingTransaction.BlockNumber { Tx := txA, BlockNumber := 102 })) :=
  ⟨by decide,
    target_advance_block relayAccepts
      (relayerWith [(senderS, [(9, { Tx := txA, BlockNumber := 101 })])])
      { NumberU64 := 101, Transactions := [] } 101 senderS 9
      { Tx := txA, BlockNumber := 101 } { Tx := txA, BlockNumber := 102 }
      (by decide) (by decide) (by decide) (by decide)⟩

/-- C3, the claim as stated fails: the head tracker is at 105 when block 101 is
processed; the entry at target 101 is written to and ends at 102, which is not
greater than 105. -/
theorem target_advance_counterexample :
    101 ≤ 105 ∧
      entryAt (relayerWith [(senderS, [(9, { Tx := txA, BlockNumber := 101 })])]).txByFromAndNonce
        senderS 9 = some { Tx := txA, BlockNumber := 101 } ∧
      entryAt (txMonitorLoop relayAccepts
        (relayerWith [(senderS, [(9, { Tx := txA, BlockNumber := 101 })])])
        { NumberU64 := 101, Transactions := [] }).txByFromAndNonce senderS 9 =
          some { Tx := txA, BlockNumber := 102 } ∧
      ¬ (105 < 102) := by
  decide

/-- C4, as amended. `processNewHeader` stores the header's number (reduced to
64 bits) whatever the stored value was: the result is `max(L, n)` exactly when
`L <= n`, and a header with `n < L` lowers `GetLatestBlockNumber()` to `n`. In
both cases the block body, when the node returns it, is offered to every
subscriber. -/
theorem head_follows_header (BlockByNumber : Nat → Except GoError Block)
    (bm : BlockchainManager) (header : Header) :
    GetLatestBlockNumber (processNewHeader BlockByNumber bm header) = u64 header.Number ∧
      (header.Number < 2 ^ 64 → GetLatestBlockNumber bm ≤ header.Number →
        GetLatestBlockNumber (processNewHeader BlockByNumber bm header) =
          max (GetLatestBlockNumber bm) header.Number) ∧
      (header.Number < GetLatestBlockNumber bm → header.Number < 2 ^ 64 →
        GetLatestBlockNumber (processNewHeader BlockByNumber bm header) = header.Number) ∧
      (∀ block, BlockByNumber header.Number = .ok block →
        (processNewHeader BlockByNumber bm header).blockSubs =
          bm.blockSubs.map (trySend block)) := by
  have h1 : GetLatestBlockNumber (processNewHeader BlockByNumber bm header) =
      u64 header.Number := by
    unfold processNewHeader GetLatestBlockNumber
    cases BlockByNumber header.Number <;> rfl
  refine ⟨h1, ?_, ?_, ?_⟩
  · intro hlt hle
    rw [h1, u64, Nat.mod_eq_of_lt hlt, Nat.max_eq_right hle]
  · intro _ hlt
    rw [h1, u64, Nat.mod_eq_of_lt hlt]
  · intro block hb
    simp [processNewHeader, hb, broadcastNewBlock]

/-- Header 101 on a head at 100: the head is 101 and the subscriber receives the block. -/
theorem head_follows_header_witness :
    GetLatestBlockNumber (processNewHeader sampleNode (headAt 100) { Number := 101 }) = 101 ∧
      (processNewHeader sampleNode (headAt 100) { Number := 101 }).blockSubs =
        [{ cap := 10, buf := [{ NumberU64 := 101, Transactions := [] }] }] := by
  have h := head_follows_header sampleNode (headAt 100) { Number := 101 }
  refine ⟨?_, ?_⟩
  · rw [h.2.1 (by decide) (by decide)]
    decide
  · rw [h.2.2.2 _ rfl]
    decide

/-- C4, the claim as stated fails: with 105 stored, a header numbered 101 leaves
101 in `latestBlockNumber`, not `max(105, 101)`; its block is still delivered. -/
theorem monotonic_head_counterexample :
    GetLatestBlockNumber (headAt 105) = 105 ∧
      GetLatestBlockNumber (processNewHeader sampleNode (headAt 105) { Number := 101 }) = 101 ∧
      max 105 101 ≠ 101 ∧
      (processNewHeader sampleNode (headAt 105) { Number := 101 }).blockSubs =
        [{ cap := 10, buf := [{ NumberU64 := 101, Transactions := [] }] }] := by
  decide

/-- C10. Re-send rule: let `n < 2 ^ 64 - 1` be the number of the delivered block
and let every surviving entry hold a transaction that `MarshalBinary` encodes.
The re-send phase of `txMonitorLoop` turns each surviving entry with
`BlockNumber <= n` into the same entry at `n + 1` and leaves the others as they
are; the calls to `SendBundle` it makes are, in iteration order, exactly one per
entry with `BlockNumber <= n`, carrying that single transaction and block number
`n + 1`, and none for the other entries; no entry's `BlockNumber` decreases. -/
theorem resend_rule (relay : Relay) (r : PrivateTxRelayer) (block : Block)
    (hn : block.NumberU64 + 1 < 2 ^ 64)
    (hm : ∀ t ∈ entries (removePhase r block.Transactions).txByFromAndNonce,
      t.2.2.Tx.MarshalBinary.isOk = true) :
    (∀ sender nonce,
      entryAt (txMonitorLoop relay r block).txByFromAndNonce sender nonce =
        (entryAt (removePhase r block.Transactions).txByFromAndNonce sender nonce).map
          (fun e => if e.BlockNumber ≤ block.NumberU64
            then { e with BlockNumber := block.NumberU64 + 1 } else e)) ∧
      (∃ calls, (txMonitorLoop relay r block).posted = r.posted ++ calls ∧
        calls.map (fun q => (q.Method, q.Params)) =
          (entries (removePhase r block.Transactions).txByFromAndNonce).flatMap
            (fun t => if t.2.2.BlockNumber ≤ block.NumberU64
              then [("eth_sendBundle",
                [Value.bundle (sendBundleArgs [hexutil.Encode (rawOf t.2.2.Tx)]
                  (block.NumberU64 + 1))])]
              else [])) ∧
      (∀ sender nonce e e1, entryAt r.txByFromAndNonce sender nonce = some e →
        entryAt (txMonitorLoop relay r block).txByFromAndNonce sender nonce = some e1 →
        e.BlockNumber ≤ e1.BlockNumber) := by
  have hbump : ∀ e : PendingTransaction, bump block.NumberU64 e =
      if e.BlockNumber ≤ block.NumberU64 then { e with BlockNumber := block.NumberU64 + 1 }
      else e := by
    intro e
    unfold bump
    by_cases h : e.BlockNumber ≤ block.NumberU64
    · simp [h, Nat.not_lt.2 h, u64_succ _ hn]
    · simp [h, Nat.lt_of_not_le h]
  have hentry : ∀ sender nonce,
      entryAt (txMonitorLoop relay r block).txByFromAndNonce sender nonce =
        (entryAt (removePhase r block.Transactions).txByFromAndNonce sender nonce).map
          (fun e => if e.BlockNumber ≤ block.NumberU64
            then { e with BlockNumber := block.NumberU64 + 1 } else e) := by
    intro sender nonce
    unfold txMonitorLoop
    rw [entryAt_resendPhase]
    congr 1
    funext e
    exact hbump e
  refine ⟨hentry, ?_, ?_⟩
  · obtain ⟨calls, h1, h2⟩ := resendSenders_posted relay block.NumberU64 hn
      (removePhase r block.Transactions) (removePhase r block.Transactions).txByFromAndNonce hm
    refine ⟨calls, ?_, ?_⟩
    · simp only [txMonitorLoop, resendPhase, h1, (removePhase_frame r block.Transactions).1]
    · rw [h2]
      rfl
  · intro sender nonce e e1 he he1
    rw [hentry] at he1
    rcases entryAt_removePhase_cases r block.Transactions sender nonce with h | h
    · rw [h] at he1
      cases he1
    · rw [h, he] at he1
      simp only [Option.map_some', Option.some.injEq] at he1
      rw [← he1]
      split
      · simp only
        omega
      · exact Nat.le_refl _

/-- Scenario 3: block 101, an entry at target 101 and one at 103. One bundle with block number `0x66` is sent, the first entry ends at 102, the second is left alone. -/
theorem resend_rule_witness :
    (101 + 1 < 2 ^ 64 ∧
      (∀ t ∈ entries (removePhase
          (relayerWith [(senderS, [(9, { Tx := txA, BlockNumber := 101 }),
            (10, { Tx := txC, BlockNumber := 103 })])]) []).txByFromAndNonce,
        t.2.2.Tx.MarshalBinary.isOk = true)) ∧
      (txMonitorLoop relayAccepts
        (relayerWith [(senderS, [(9, { Tx := txA, BlockNumber := 101 }),
          (10, { Tx := txC, BlockNumber := 103 })])])
        { NumberU64 := 101, Transactions := [] }).txByFromAndNonce =
          [(senderS, [(9, { Tx := txA, BlockNumber := 102 }),
            (10, { Tx := txC, BlockNumber := 103 })])] ∧
      (txMonitorLoop relayAccepts
        (relayerWith [(senderS, [(9, { Tx := txA, BlockNumber := 101 }),
          (10, { Tx := txC, BlockNumber := 103 })])])
        { NumberU64 := 101, Transactions := [] }).posted =
          [{ Id := .uint64 1000000001
             Method := "eth_sendBundle"
             Params := [.bundle
               { Txs := [hexA], BlockNumber := "0x66", MinTimestamp := "", MaxTimestamp := "",
                 RevertingTxHashes := [] }]
             Version := "2.0" }] ∧
      (∀ sender nonce e e1,
        entryAt (relayerWith [(senderS, [(9, { Tx := txA, BlockNumber := 101 }),
          (10, { Tx := txC, BlockNumber := 103 })])]).txByFromAndNonce sender nonce = some e →
        entryAt (txMonitorLoop relayAccepts
          (relayerWith [(senderS, [(9, { Tx := txA, BlockNumber := 101 }),
            (10, { Tx := txC, BlockNumber := 103 })])])
          { NumberU64 := 101, Transactions := [] }).txByFromAndNonce sender nonce = some e1 →
        e.BlockNumber ≤ e1.BlockNumber) :=
  ⟨⟨by decide, by decide⟩, by decide, by decide,
    (resend_rule relayAccepts
      (relayerWith [(senderS, [(9, { Tx := txA, BlockNumber := 101 }),
        (10, { Tx := txC, BlockNumber := 103 })])])
      { NumberU64 := 101, Transactions := [] } (by decide) (by decide)).2.2⟩

/-- C6. Happy-path first submission: when the first parameter decodes (hex, then
`UnmarshalBinary`) to `tx`, the sender of `tx` is recovered, the head tracker
reads `L` with `L + 1 < 2 ^ 64` and `SendBundle` returns no error, then
`SendRawTransaction` makes exactly one request, an `eth_sendBundle` whose `txs` is
the parameter itself and whose `blockNumber` is `0x` followed by `L + 1` in
hexadecimal; the registry then holds `tx` with target `L + 1` at
`(From(tx), tx.Nonce())`; and the response carries the request's id, version
`2.0` and the transaction hash. -/
theorem happy_path_first_submission (UnmarshalBinary : List Nat → Except GoError Transaction)
    (relay : Relay) (bm : BlockchainManager) (r : PrivateTxRelayer) (req : JsonRpcRequest)
    (rawTxHex : String) (rest : List Value) (rawTxBytes : List Nat) (tx : Transaction)
    (sender : String)
    (hp : req.Params = .str rawTxHex :: rest)
    (hlen : 2 ≤ (goBytes rawTxHex).length)
    (hhex : hex.DecodeString ((goBytes rawTxHex).drop 2) = some rawTxBytes)
    (htx : UnmarshalBinary rawTxBytes = .ok tx)
    (hs : From tx = .ok sender)
    (hL : GetLatestBlockNumber bm + 1 < 2 ^ 64)
    (hrelay : (SendBundle relay r [rawTxHex] (GetLatestBlockNumber bm + 1)).2 = none) :
    (SendRawTransaction UnmarshalBinary relay bm r req).2 =
        .ok { Id := req.Id, Result := .str tx.Hash, Error := .null, Message := .null,
              Version := "2.0" } ∧
      (SendRawTransaction UnmarshalBinary relay bm r req).1.posted =
        r.posted ++
          [{ Id := .uint64 (u64 (r.id + 1))
             Method := "eth_sendBundle"
             Params := [.bundle
               { Txs := [rawTxHex]
                 BlockNumber := "0x" ++ strconv.FormatUint (GetLatestBlockNumber bm + 1)
                 MinTimestamp := ""
                 MaxTimestamp := ""
                 RevertingTxHashes := [] }]
             Version := "2.0" }] ∧
      entryAt (SendRawTransaction UnmarshalBinary relay bm r req).1.txByFromAndNonce
        sender tx.Nonce = some { Tx := tx, BlockNumber := GetLatestBlockNumber bm + 1 } := by
  rw [← u64_succ _ hL] at hrelay ⊢
  rw [SendRawTransaction_accepted UnmarshalBinary relay bm r req rawTxHex rest rawTxBytes tx
    sender hp hlen hhex htx hs hrelay]
  refine ⟨rfl, rfl, ?_⟩
  simp only [entryAt_added]
  simp

/-- Scenario 1: request id 7, head at 100, the relay accepts. -/
theorem happy_path_first_submission_witness :
    (SendRawTransaction sampleUnmarshal relayAccepts (headAt 100)
        (NewPrivateTxRelayer "https://relay.example") (rawTxRequest (.str hexA))).2 =
        .ok { Id := .num 7, Result := .str txA.Hash, Error := .null, Message := .null,
              Version := "2.0" } ∧
      (SendRawTransaction sampleUnmarshal relayAccepts (headAt 100)
        (NewPrivateTxRelayer "https://relay.example") (rawTxRequest (.str hexA))).1.posted =
        [{ Id := .uint64 1000000001
           Method := "eth_sendBundle"
           Params := [.bundle
             { Txs := [hexA], BlockNumber := "0x65", MinTimestamp := "", MaxTimestamp := "",
               RevertingTxHashes := [] }]
           Version := "2.0" }] ∧
      entryAt (SendRawTransaction sampleUnmarshal relayAccepts (headAt 100)
        (NewPrivateTxRelayer "https://relay.example")
        (rawTxRequest (.str hexA))).1.txByFromAndNonce senderS 9 =
          some { Tx := txA, BlockNumber := 101 } :=
  happy_path_first_submission sampleUnmarshal relayAccepts (headAt 100)
    (NewPrivateTxRelayer "https://relay.example") (rawTxRequest (.str hexA)) hexA [] rawA txA
    senderS rfl (by decide) (by decide) (by decide) (by decide) (by decide) (by decide)

/-- C7. Failure atomicity of the first submission: when `SendBundle` returns an
error inside `SendRawTransaction`, that error is what `SendRawTransaction`
returns, with no response, and the registry is as before the call; and whenever
a call of `SendRawTransaction` leaves the registry changed, its `SendBundle` call
had returned no error. -/
theorem failure_atomicity (UnmarshalBinary : List Nat → Except GoError Transaction)
    (relay : Relay) (bm : BlockchainManager) (r : PrivateTxRelayer) (req : JsonRpcRequest)
    (rawTxHex : String) (rest : List Value) (rawTxBytes : List Nat) (tx : Transaction)
    (err : GoError)
    (hp : req.Params = .str rawTxHex :: rest)
    (hlen : 2 ≤ (goBytes rawTxHex).length)
    (hhex : hex.DecodeString ((goBytes rawTxHex).drop 2) = some rawTxBytes)
    (htx : UnmarshalBinary rawTxBytes = .ok tx)
    (herr : (SendBundle relay r [rawTxHex] (u64 (GetLatestBlockNumber bm + 1))).2 = some err) :
    (SendRawTransaction UnmarshalBinary relay bm r req).2 = .error err ∧
      (SendRawTransaction UnmarshalBinary relay bm r req).1.txByFromAndNonce =
        r.txByFromAndNonce ∧
      ∀ req2 : JsonRpcRequest,
        (SendRawTransaction UnmarshalBinary relay bm r req2).1.txByFromAndNonce ≠
            r.txByFromAndNonce →
          ∃ rawTxHex2 rest2, req2.Params = .str rawTxHex2 :: rest2 ∧
            (SendBundle relay r [rawTxHex2] (u64 (GetLatestBlockNumber bm + 1))).2 = none := by
  refine ⟨?_, ?_, ?_⟩
  · rw [SendRawTransaction_relay_error UnmarshalBinary relay bm r req rawTxHex rest rawTxBytes
      tx err hp hlen hhex htx herr]
  · rw [SendRawTransaction_relay_error UnmarshalBinary relay bm r req rawTxHex rest rawTxBytes
      tx err hp hlen hhex htx herr]
  · intro req2 hne
    cases hP : req2.Params with
    | nil => simp [SendRawTransaction, hP] at hne
    | cons p rest2 =>
      cases p with
      | str s =>
        refine ⟨s, rest2, rfl, ?_⟩
        by_cases hl : (goBytes s).length < 2
        · simp [SendRawTransaction, hP, hl] at hne
        · cases hh : hex.DecodeString ((goBytes s).drop 2) with
          | none => simp [SendRawTransaction, hP, hl, hh] at hne
          | some bytes =>
            cases hu : UnmarshalBinary bytes with
            | error e => simp [SendRawTransaction, hP, hl, hh, hu] at hne
            | ok tx2 =>
              cases hsb : (SendBundle relay r [s] (u64 (GetLatestBlockNumber bm + 1))).2 with
              | none => rfl
              | some e2 =>
                rw [SendRawTransaction_relay_error UnmarshalBinary relay bm r req2 s rest2 bytes
                  tx2 e2 hP (Nat.le_of_not_lt hl) hh hu hsb] at hne
                exact absurd rfl hne
      | null => simp [SendRawTransaction, hP] at hne
      | num _ => simp [SendRawTransaction, hP] at hne
      | uint64 _ => simp [SendRawTransaction, hP] at hne
      | bool _ => simp [SendRawTransaction, hP] at hne
      | bundle _ => simp [SendRawTransaction, hP] at hne
      | other _ => simp [SendRawTransaction, hP] at hne

/-- The relay is down: the error comes back and the registry keeps its one unrelated entry. -/
theorem failure_atomicity_witness :
    (SendBundle relayDown (relayerWith [(senderS, [(10, { Tx := txC, BlockNumber := 99 })])])
        [hexA] (u64 (GetLatestBlockNumber (headAt 100) + 1))).2 =
        some (.text "connection refused") ∧
      (SendRawTransaction sampleUnmarshal relayDown (headAt 100)
        (relayerWith [(senderS, [(10, { Tx := txC, BlockNumber := 99 })])])
        (rawTxRequest (.str hexA))).2 = .error (.text "connection refused") ∧
      (SendRawTransaction sampleUnmarshal relayDown (headAt 100)
        (relayerWith [(senderS, [(10, { Tx := txC, BlockNumber := 99 })])])
        (rawTxRequest (.str hexA))).1.txByFromAndNonce =
          [(senderS, [(10, { Tx := txC, BlockNumber := 99 })])] :=
  ⟨by decide,
    (failure_atomicity sampleUnmarshal relayDown (headAt 100)
      (relayerWith [(senderS, [(10, { Tx := txC, BlockNumber := 99 })])])
      (rawTxRequest (.str hexA)) hexA [] rawA txA (.text "connection refused")
      rfl (by decide) (by decide) (by decide) (by decide)).1,
    (failure_atomicity sampleUnmarshal relayDown (headAt 100)
      (relayerWith [(senderS, [(10, { Tx := txC, BlockNumber := 99 })])])
      (rawTxRequest (.str hexA)) hexA [] rawA txA (.text "connection refused")
      rfl (by decide) (by decide) (by decide) (by decide)).2.1⟩

/-- C8, as amended. Ingress validation: when `params` is empty, or `params[0]` is
not a string, or it is a string shorter than two bytes, or what follows its
first two bytes is not an even number of hexadecimal digits (of either case),
`SendRawTransaction` returns an error (`invalid params` in the first case,
`invalid raw transaction` in the others) and leaves the relayer as it was: no
bundle is sent and the registry is unchanged. -/
theorem ingress_validation (UnmarshalBinary : List Nat → Except GoError Transaction)
    (relay : Relay) (bm : BlockchainManager) (r : PrivateTxRelayer) (req : JsonRpcRequest)
    (h : req.Params = [] ∨
      (∃ p rest, req.Params = p :: rest ∧ ∀ s, p ≠ .str s) ∨
      (∃ s rest, req.Params = .str s :: rest ∧
        ((goBytes s).length < 2 ∨ isHexBody ((goBytes s).drop 2) = false))) :
    SendRawTransaction UnmarshalBinary relay bm r req =
      (r, .error (.text (if req.Params = [] then "invalid params"
        else "invalid raw transaction"))) := by
  rcases h with h | ⟨p, rest, h, hp⟩ | ⟨s, rest, h, hs⟩
  · simp [SendRawTransaction, h]
  · cases p with
    | str s => exact absurd rfl (hp s)
    | null => simp [SendRawTransaction, h]
    | num _ => simp [SendRawTransaction, h]
    | uint64 _ => simp [SendRawTransaction, h]
    | bool _ => simp [SendRawTransaction, h]
    | bundle _ => simp [SendRawTransaction, h]
    | other _ => simp [SendRawTransaction, h]
  · by_cases hl : (goBytes s).length < 2
    · simp [SendRawTransaction, h, hl]
    · have hb : isHexBody ((goBytes s).drop 2) = false := by
        rcases hs with hs | hs
        · exact absurd hs hl
        · exact hs
      have hd := (DecodeString_eq_none_iff _).2 hb
      simp [SendRawTransaction, h, hl, hd]

/-- A parameter with a character that is no hexadecimal digit. -/
theorem ingress_validation_witness :
    isHexBody ((goBytes "0xf86g").drop 2) = false ∧
      SendRawTransaction sampleUnmarshal relayAccepts (headAt 100)
        (relayerWith [(senderS, [(10, { Tx := txC, BlockNumber := 99 })])])
        (rawTxRequest (.str "0xf86g")) =
        (relayerWith [(senderS, [(10, { Tx := txC, BlockNumber := 99 })])],
          .error (.text (if (rawTxRequest (.str "0xf86g")).Params = [] then "invalid params"
            else "invalid raw transaction"))) :=
  ⟨by decide,
    ingress_validation sampleUnmarshal relayAccepts (headAt 100)
      (relayerWith [(senderS, [(10, { Tx := txC, BlockNumber := 99 })])])
      (rawTxRequest (.str "0xf86g"))
      (Or.inr (Or.inr ⟨"0xf86g", [], rfl, Or.inr (by decide)⟩))⟩

/-- C8, the claim as stated fails. Neither parameter below is a `0x`-prefixed
lower-case hexadecimal string: the first has upper-case digits, the second the
prefix `0X`. `SendRawTransaction` accepts both, sends a bundle that carries the
parameter verbatim and stores the transaction. -/
theorem ingress_validation_counterexample :
    (isLowerHex0x hexAUpperDigits = false ∧
      SendRawTransaction sampleUnmarshal relayAccepts (headAt 100)
        (NewPrivateTxRelayer "https://relay.example") (rawTxRequest (.str hexAUpperDigits)) =
        ({ Url := "https://relay.example"
           id := 1000000001
           txByFromAndNonce := [(senderS, [(9, { Tx := txA, BlockNumber := 101 })])]
           posted :=
             [{ Id := .uint64 1000000001
                Method := "eth_sendBundle"
                Params := [.bundle
                  { Txs := [hexAUpperDigits], BlockNumber := "0x65", MinTimestamp := "",
                    MaxTimestamp := "", RevertingTxHashes := [] }]
                Version := "2.0" }] },
          .ok { Id := .num 7, Result := .str txA.Hash, Error := .null, Message := .null,
                Version := "2.0" })) ∧
    (isLowerHex0x hexAUpperPrefix = false ∧
      SendRawTransaction sampleUnmarshal relayAccepts (headAt 100)
        (NewPrivateTxRelayer "https://relay.example") (rawTxRequest (.str hexAUpperPrefix)) =
        ({ Url := "https://relay.example"
           id := 1000000001
           txByFromAndNonce := [(senderS, [(9, { Tx := txA, BlockNumber := 101 })])]
           posted :=
             [{ Id := .uint64 1000000001
                Method := "eth_sendBundle"
                Params := [.bundle
                  { Txs := [hexAUpperPrefix], BlockNumber := "0x65", MinTimestamp := "",
                    MaxTimestamp := "", RevertingTxHashes := [] }]
                Version := "2.0" }] },
          .ok { Id := .num 7, Result := .str txA.Hash, Error := .null, Message := .null,
                Version := "2.0" })) := by
  refine ⟨⟨?_, ?_⟩, ⟨?_, ?_⟩⟩ <;> decide

/-- C5. Replacement overwrite and unique slot: on a registry that is a map of
maps, `addPendingTransaction(tx, b)` with recovered sender returns no error and
leaves exactly one entry at `(From(tx), tx.Nonce())`, namely `{tx, b}` (whatever
was there before is gone), every other slot is unchanged, and the registry is
still a map of maps. Hence, starting from an empty registry, inserting `A` and
then `tx` at the same `(sender, nonce)` leaves a registry holding `tx` alone, and a
later pass over any block makes no request or the single request that carries
the encoding of `tx`, the latter whenever the slot is not consumed by the block,
the target `b` is due and `tx` encodes. -/
theorem replacement_overwrite (r : PrivateTxRelayer) (tx : Transaction) (b : Nat)
    (sender : String) (hwf : WF r.txByFromAndNonce) (hs : From tx = .ok sender) :
    (addPendingTransaction r tx b).2 = none ∧
      entryAt (addPendingTransaction r tx b).1.txByFromAndNonce sender tx.Nonce =
        some { Tx := tx, BlockNumber := b } ∧
      slotEntries (addPendingTransaction r tx b).1.txByFromAndNonce sender tx.Nonce =
        [{ Tx := tx, BlockNumber := b }] ∧
      (∀ s n, ¬ (sender = s ∧ tx.Nonce = n) →
        entryAt (addPendingTransaction r tx b).1.txByFromAndNonce s n =
            entryAt r.txByFromAndNonce s n ∧
          slotEntries (addPendingTransaction r tx b).1.txByFromAndNonce s n =
            slotEntries r.txByFromAndNonce s n) ∧
      WF (addPendingTransaction r tx b).1.txByFromAndNonce ∧
      (∀ (r0 : PrivateTxRelayer) (A : Transaction) (b1 : Nat),
        r0.txByFromAndNonce = [] → From A = .ok sender → A.Nonce = tx.Nonce →
        (addPendingTransaction (addPendingTransaction r0 A b1).1 tx b).1.txByFromAndNonce =
            [(sender, [(tx.Nonce, { Tx := tx, BlockNumber := b })])] ∧
          ∀ (relay : Relay) (block : Block),
            (txMonitorLoop relay (addPendingTransaction (addPendingTransaction r0 A b1).1 tx b).1
                block).posted =
              r0.posted ++
                if (∀ T ∈ block.Transactions, ¬ (From T = .ok sender ∧ T.Nonce = tx.Nonce)) ∧
                    b ≤ block.NumberU64 then
                  match tx.MarshalBinary with
                  | .ok raw =>
                    [bundleRequest (u64 (r0.id + 1)) [hexutil.Encode raw]
                      (u64 (block.NumberU64 + 1))]
                  | .error _ => []
                else []) := by
  rw [addPendingTransaction_ok r tx b sender hs]
  refine ⟨rfl, ?_, slotEntries_added_same _ _ _ _ hwf, ?_, WF_added _ _ _ _ hwf, ?_⟩
  · simp [entryAt_added]
  · intro s n hne
    refine ⟨?_, slotEntries_added_other _ _ _ _ hwf s n hne⟩
    simp [entryAt_added, hne]
  · intro r0 A b1 h0 hA hnonce
    have hreg : (addPendingTransaction (addPendingTransaction r0 A b1).1 tx b).1.txByFromAndNonce =
        [(sender, [(tx.Nonce, { Tx := tx, BlockNumber := b })])] := by
      rw [addPendingTransaction_ok r0 A b1 sender hA, addPendingTransaction_ok _ tx b sender hs]
      simp [added, h0, mapIndex, mapAssign, hnonce]
    refine ⟨hreg, ?_⟩
    intro relay block
    rw [txMonitorLoop_single_posted relay _ block sender tx.Nonce _ hreg]
    rw [addPendingTransaction_ok r0 A b1 sender hA, addPendingTransaction_ok _ tx b sender hs]

/-- Scenario 4: `txA` then `txB` at `(senderS, 9)`; block 101 then re-sends `txB` only. -/
theorem replacement_overwrite_witness :
    (WF (addPendingTransaction (NewPrivateTxRelayer "https://relay.example") txA
        101).1.txByFromAndNonce ∧ From txB = .ok senderS) ∧
      (addPendingTransaction
        (addPendingTransaction (NewPrivateTxRelayer "https://relay.example") txA 101).1
        txB 101).1.txByFromAndNonce = [(senderS, [(9, { Tx := txB, BlockNumber := 101 })])] ∧
      (txMonitorLoop relayAccepts
        (addPendingTransaction
          (addPendingTransaction (NewPrivateTxRelayer "https://relay.example") txA 101).1
          txB 101).1 { NumberU64 := 101, Transactions := [txC] }).posted =
        [{ Id := .uint64 1000000001
           Method := "eth_sendBundle"
           Params := [.bundle
             { Txs := [hexB], BlockNumber := "0x66", MinTimestamp := "", MaxTimestamp := "",
               RevertingTxHashes := [] }]
           Version := "2.0" }] ∧
      slotEntries (addPendingTransaction
        (addPendingTransaction (NewPrivateTxRelayer "https://relay.example") txA 101).1
        txB 101).1.txByFromAndNonce senderS txB.Nonce = [{ Tx := txB, BlockNumber := 101 }] :=
  ⟨⟨by simp [WF, WFMap, addPendingTransaction, NewPrivateTxRelayer, From, txA, mapIndex,
        mapAssign], by decide⟩,
    by decide, by decide,
    (replacement_overwrite
      (addPendingTransaction (NewPrivateTxRelayer "https://relay.example") txA 101).1 txB 101
      senderS
      (by simp [WF, WFMap, addPendingTransaction, NewPrivateTxRelayer, From, txA, mapIndex,
        mapAssign])
      (by decide)).2.2.1⟩

end Safunode
